import Mathlib

/-!
# ATtiny I2C fan control: embedding of `main.cpp`

The firmware targets an ATtiny (avr-gcc): `uint8_t` is 8 bit, `int`,
`unsigned int` and `uint16_t` are 16 bit, `long` and `unsigned long` are
32 bit.  Machine integers are natural numbers, reduced modulo `2^w` wherever
the source stores into or computes in a `w`-bit type.

The globals `ledStatus` and `timepwmLevelMinCalNextStep` are never read or
written by the source and are left out of the state.
-/

namespace FanControl

/-! ## Machine arithmetic -/

/-- Conversion to `uint8_t`. -/
def u8 (n : Nat) : Nat := n % 2 ^ 8

/-- Conversion to `uint16_t` (also `unsigned int` on the target). -/
def u16 (n : Nat) : Nat := n % 2 ^ 16

/-- Conversion to `unsigned long` (32 bit on the target). -/
def u32 (n : Nat) : Nat := n % 2 ^ 32

/-- The cast `(long) x` of a 32-bit unsigned value: two's complement. -/
def toLong (n : Nat) : Int :=
  if n % 2 ^ 32 < 2 ^ 31 then ((n % 2 ^ 32 : Nat) : Int) else ((n % 2 ^ 32 : Nat) : Int) - 2 ^ 32

/-- Conversion of a `long` to `uint8_t`. -/
def longToU8 (z : Int) : Nat := (z % 256).toNat

/-- Constant `#define TWI_RX_BUFFER_SIZE ( 16 )`. -/
def TWI_RX_BUFFER_SIZE : Nat := 16

/-- Constant `#define RPS_MULTI 3`. -/
def RPS_MULTI : Nat := 3

/-- Comparison `#define checkTime(a, b) ((long)(a - b) >= 0)` on `unsigned long` operands:
the difference is taken modulo `2^32` and then read as a signed `long`. -/
def checkTime (a b : Nat) : Bool :=
  decide (0 ≤ toLong (u32 (a % 2 ^ 32 + (2 ^ 32 - b % 2 ^ 32))))

/-- Arduino `bitRead(value, 0)`: `((value) >> 0) & 0x01`. -/
def bitRead0 (v : Nat) : Bool := decide ((v >>> 0) &&& 1 ≠ 0)

/-- Arduino `bitSet(value, 0)` on a `uint8_t` cell: `value |= 1`. -/
def bitSet0 (v : Nat) : Nat := u8 (v ||| 1)

/-- Arduino `bitClear(value, 0)` on a `uint8_t` cell: `value &= ~1`. -/
def bitClear0 (v : Nat) : Nat := u8 (v &&& 0xFE)

/-- Modelled from the spec: the Arduino core function
`long map(long x, long in_min, long in_max, long out_min, long out_max)`, which
`setFanSpeed` calls and which is not among the sources of this repository.  The
spec describes it as the linear remap of `x` from `[in_min, in_max]` onto
`[out_min, out_max]` by proportional interpolation; with integer (`long`)
arithmetic and C division, which truncates towards zero, that is
`(x - in_min) * (out_max - out_min) / (in_max - in_min) + out_min`. -/
def map (x in_min in_max out_min out_max : Int) : Int :=
  Int.tdiv ((x - in_min) * (out_max - out_min)) (in_max - in_min) + out_min

/-! ## State -/

/-- The array `volatile uint8_t i2c_regs[6]`, one field per cell. -/
structure Regs where
  /-- Cell `0x00`, status register. -/
  r0 : Nat
  /-- Cell `0x01`, set speed command. -/
  r1 : Nat
  /-- Cell `0x02`, min pwm. -/
  r2 : Nat
  /-- Cell `0x03`, tacho rps. -/
  r3 : Nat
  /-- Cell `0x04`, tacho low byte. -/
  r4 : Nat
  /-- Cell `0x05`, tacho high byte. -/
  r5 : Nat
deriving DecidableEq, Repr

/-- Constant `const uint8_t reg_size = sizeof(i2c_regs)`. -/
def reg_size : Nat := 6

/-- The read `i2c_regs[i]`: a cell of the array for `i < 6`; an index past the
end of the array addresses no cell of it, and the read has no defined value. -/
def Regs.read (r : Regs) : Nat → Option Nat
  | 0 => some r.r0
  | 1 => some r.r1
  | 2 => some r.r2
  | 3 => some r.r3
  | 4 => some r.r4
  | 5 => some r.r5
  | _ => none

/-- The globals of `main.cpp`, and the two output pins the firmware drives. -/
structure State where
  /-- Counter `volatile uint16_t rps`, incremented by the tacho interrupt. -/
  rps : Nat
  /-- Variable `uint16_t rpm`. -/
  rpm : Nat
  /-- Variable `unsigned long now`. -/
  now : Nat
  /-- Variable `unsigned long timeNextRpmCalc`. -/
  timeNextRpmCalc : Nat
  /-- Variable `uint8_t pwmLevel`. -/
  pwmLevel : Nat
  /-- Variable `uint8_t pwmLevelMin`. -/
  pwmLevelMin : Nat
  /-- Flag `bool pwmLevelMinCal`. -/
  pwmLevelMinCal : Bool
  /-- Flag `bool pwmLevelMinCalStart`. -/
  pwmLevelMinCalStart : Bool
  /-- Flag `bool blinkLed`. -/
  blinkLed : Bool
  /-- The register file. -/
  i2c_regs : Regs
  /-- Variable `volatile uint8_t reg_position`. -/
  reg_position : Nat
  /-- Last value given to `analogWrite(PIN_PWM, ·)`. -/
  pinPwm : Nat
  /-- Last value given to `digitalWrite(LED, ·)`. -/
  pinLed : Bool
deriving DecidableEq, Repr

/-! ## Operations -/

/-- Function `void setFanSpeed (uint8_t speed)`. -/
def setFanSpeed (s : State) (speed : Nat) : State :=
  let s1 : State :=
    if speed > 0 then
      { s with pwmLevel := longToU8 (map speed 0 255 s.pwmLevelMin 255) }
    else
      { s with pwmLevel := 0 }
  { s1 with pinPwm := s1.pwmLevel }

/-- The statement pair `reg_position++; if (reg_position >= reg_size) reg_position = 0;`
that ends both bus handlers. -/
def advance (s : State) : State :=
  let p := u8 (s.reg_position + 1)
  { s with reg_position := if p ≥ reg_size then 0 else p }

/-- Function `void i2cRequestEvent()`: the byte handed to `TinyWireS.send`, and the state
after the pointer has moved on. -/
def i2cRequestEvent (s : State) : Option Nat × State :=
  (s.i2c_regs.read s.reg_position, advance s)

/-- One pass through the body of `while (howMany--)` in `i2cReceiveEvent`, up to
the pointer increment; `b` is the byte that `TinyWireS.receive()` returns, which
every branch calls exactly once. -/
def receiveData (s : State) (b : Nat) : State :=
  if s.reg_position = 0x00 ∧ s.pwmLevelMinCal = false ∧ s.pwmLevelMinCalStart = false then
    let s1 : State := { s with i2c_regs := { s.i2c_regs with r0 := u8 (b &&& 0b00000001) } }
    if bitRead0 s1.i2c_regs.r0 then { s1 with pwmLevelMinCalStart := true } else s1
  else if s.reg_position = 0x01 ∧ s.pwmLevelMinCal = false ∧ s.pwmLevelMinCalStart = false then
    let s1 : State := { s with i2c_regs := { s.i2c_regs with r1 := u8 b } }
    setFanSpeed s1 s1.i2c_regs.r1
  else if s.reg_position = 0x02 ∧ s.pwmLevelMinCal = false ∧ s.pwmLevelMinCalStart = false then
    let s1 : State := { s with i2c_regs := { s.i2c_regs with r2 := u8 b } }
    let s2 : State := { s1 with pwmLevelMin := s1.i2c_regs.r2 }
    setFanSpeed s2 s2.i2c_regs.r1
  else
    s

/-- The loop `while (howMany--) { ... }` of `i2cReceiveEvent`: `howMany` passes,
each taking one byte from the receive buffer `rx`.  `TinyWireS.receive()` on an
empty buffer waits for a byte and does not return: `none`. -/
def receiveLoop : Nat → State → List Nat → Option State
  | 0, s, _ => some s
  | _ + 1, _, [] => none
  | n + 1, s, b :: rx => receiveLoop n (advance (receiveData s b)) rx

/-- Function `void i2cReceiveEvent (uint8_t howMany)`; `rx` is the content of the
receive buffer of the bus library, oldest byte first. -/
def i2cReceiveEvent (s : State) (howMany : Nat) (rx : List Nat) : Option State :=
  if howMany < 1 ∨ howMany > TWI_RX_BUFFER_SIZE then
    some s
  else
    let s1 : State := { s with blinkLed := true }
    match rx with
    | [] => none
    | p :: rx1 =>
      let s2 : State := { s1 with reg_position := u8 p }
      let howMany1 := howMany - 1
      if howMany1 = 0 then some s2 else receiveLoop howMany1 s2 rx1

/-- Function `void handlePcintTacho (void)`: `rps++` on a `uint16_t`. -/
def handlePcintTacho (s : State) : State :=
  { s with rps := u16 (s.rps + 1) }

/-- The state when `setup()` returns; `millis` is the value read from the
clock.  All globals start zero-initialised. -/
def setup (millis : Nat) : State :=
  let s0 : State :=
    { rps := 0, rpm := 0, now := 0, timeNextRpmCalc := 0, pwmLevel := 0, pwmLevelMin := 0,
      pwmLevelMinCal := false, pwmLevelMinCalStart := false, blinkLed := false,
      i2c_regs := { r0 := 0, r1 := 0, r2 := 0, r3 := 0, r4 := 0, r5 := 0 },
      reg_position := 0, pinPwm := 0, pinLed := false }
  let s1 : State := { s0 with now := u32 millis }
  let s2 : State := { s1 with timeNextRpmCalc := u32 (s1.now + 1000 * RPS_MULTI) }
  let s3 := setFanSpeed s2 0
  { s3 with pwmLevelMinCalStart := true }

/-- The calibration step of `loop()`: the `if (pwmLevelMinCalStart) ... else if
(pwmLevelMinCal) ...` statement at the end of the measurement block. -/
def calibrationStep (s : State) : State :=
  if s.pwmLevelMinCalStart then
    if s.pwmLevelMinCal = false then
      let s1 := setFanSpeed s 0
      let s2 : State := { s1 with i2c_regs := { s1.i2c_regs with r0 := bitSet0 s1.i2c_regs.r0 } }
      let s3 : State := { s2 with pinLed := true }
      { s3 with pwmLevelMinCal := true }
    else
      { s with pwmLevelMinCalStart := false }
  else if s.pwmLevelMinCal then
    if s.rpm > 200 then
      let s1 : State := { s with pwmLevelMin := u8 (s.pwmLevel + 5) }
      let s2 : State := { s1 with pwmLevelMinCal := false }
      let s3 : State := { s2 with i2c_regs := { s2.i2c_regs with r2 := s2.pwmLevelMin } }
      let s4 : State := { s3 with i2c_regs := { s3.i2c_regs with r0 := bitClear0 s3.i2c_regs.r0 } }
      let s5 := setFanSpeed s4 0
      { s5 with pinLed := false }
    else
      let s1 : State := { s with pwmLevel := u8 (s.pwmLevel + 5) }
      let s2 : State := { s1 with pinPwm := s1.pwmLevel }
      let s3 : State := { s2 with i2c_regs := { s2.i2c_regs with r0 := bitSet0 s2.i2c_regs.r0 } }
      { s3 with pinLed := true }
  else
    s

/-- The block of `loop()` guarded by `checkTime(now, timeNextRpmCalc)`: the
measurement, its publication, the new deadline and the calibration step.
`rps * 60 / RPS_MULTI` is computed in `unsigned int`, 16 bit on the target. -/
def measurement (s : State) : State :=
  let s1 : State := { s with rpm := u16 (u16 (s.rps * 60) / RPS_MULTI) }
  let s2 : State := { s1 with i2c_regs := { s1.i2c_regs with r3 := u8 ((s1.rps / RPS_MULTI) &&& 0xff) } }
  let s3 : State := { s2 with i2c_regs := { s2.i2c_regs with r4 := u8 (s2.rpm &&& 0xff) } }
  let s4 : State := { s3 with i2c_regs := { s3.i2c_regs with r5 := u8 ((s3.rpm >>> 8) &&& 0xff) } }
  let s5 : State := { s4 with rps := 0 }
  let s6 : State := { s5 with timeNextRpmCalc := u32 (s5.now + 1000 * RPS_MULTI) }
  calibrationStep s6

/-- The block `if (blinkLed) { ... }` of `loop()`: the LED is switched on, held
for 50 ms and switched off, and the request is cleared. -/
def serviceBlink (s : State) : State :=
  if s.blinkLed then { s with pinLed := false, blinkLed := false } else s

/-- Function `void loop()`; `millis` is the value read from the clock in this pass.
The bus library call `TinyWireS_stop_check()` that opens the pass changes no
global itself; the write handler it may run is the separate event
`i2cReceiveEvent`. -/
def loop (s : State) (millis : Nat) : State :=
  let s1 : State := serviceBlink s
  let s2 : State := { s1 with now := u32 millis }
  if checkTime s2.now s2.timeNextRpmCalc then measurement s2 else s2

/-! ## Calibration states, events and runs -/

/-- Neither calibration flag is set. -/
def Idle (s : State) : Prop := s.pwmLevelMinCal = false ∧ s.pwmLevelMinCalStart = false

/-- Calibration start is armed and calibration is not yet active. -/
def StopRequested (s : State) : Prop := s.pwmLevelMinCalStart = true ∧ s.pwmLevelMinCal = false

/-- Calibration is active and the start flag is still set. -/
def Stopping (s : State) : Prop := s.pwmLevelMinCalStart = true ∧ s.pwmLevelMinCal = true

/-- Calibration is active and the start flag has been cleared. -/
def Ramping (s : State) : Prop := s.pwmLevelMinCal = true ∧ s.pwmLevelMinCalStart = false

instance (s : State) : Decidable (Idle s) := by unfold Idle; infer_instance
instance (s : State) : Decidable (StopRequested s) := by unfold StopRequested; infer_instance
instance (s : State) : Decidable (Stopping s) := by unfold Stopping; infer_instance
instance (s : State) : Decidable (Ramping s) := by unfold Ramping; infer_instance

/-- States the firmware can be in: the state after `setup()`, and every state a
bus write, a bus read request, a tacho interrupt or a pass of `loop()` leads to
from such a state.  The bus library hands `i2cReceiveEvent` the number of bytes
in its receive buffer. -/
inductive Reachable : State → Prop
  | init (millis : Nat) : Reachable (setup millis)
  | write {s s1 : State} (rx : List Nat) :
      Reachable s → i2cReceiveEvent s rx.length rx = some s1 → Reachable s1
  | read {s : State} : Reachable s → Reachable (i2cRequestEvent s).2
  | pulse {s : State} : Reachable s → Reachable (handlePcintTacho s)
  | pass {s : State} (millis : Nat) : Reachable s → Reachable (loop s millis)

/-- A byte operation on the bus: a read request, or one data byte of a write. -/
inductive ByteOp where
  | read : ByteOp
  | data (b : Nat) : ByteOp
deriving DecidableEq, Repr

/-- The state after one byte operation. -/
def ByteOp.run (s : State) : ByteOp → State
  | ByteOp.read => (i2cRequestEvent s).2
  | ByteOp.data b => advance (receiveData s b)

/-- The state after a sequence of byte operations. -/
def runOps (s : State) (ops : List ByteOp) : State := ops.foldl ByteOp.run s

/-- The speed driver in the words of the spec, to compare `setFanSpeed` with:
level `0` for speed `0`, otherwise the linear remap of `[0,255]` onto
`[floor,255]`. -/
def computeActualLevel (requestedSpeed floor : Nat) : Nat :=
  if requestedSpeed = 0 then 0 else floor + requestedSpeed * (255 - floor) / 255

/-- The master reads register `p`: a write of the pointer byte alone, then one
read request. -/
def readRegister (s : State) (p : Nat) : Option Nat :=
  (i2cReceiveEvent s 1 [p]).bind fun s1 => (i2cRequestEvent s1).1

/-- The pass of `loop()` at clock value `millis` finds the measurement period over. -/
def Fires (s : State) (millis : Nat) : Prop := checkTime (u32 millis) s.timeNextRpmCalc = true

instance (s : State) (millis : Nat) : Decidable (Fires s millis) := by unfold Fires; infer_instance

/-- A pass of `loop()` at clock value `millis` after the tacho interrupt has
counted `c` pulses. -/
def tick (s : State) (c millis : Nat) : State := loop { s with rps := c } millis

/-- The state after a sequence of passes, each given as (pulse count, clock value). -/
def ticks (s : State) : List (Nat × Nat) → State
  | [] => s
  | (c, m) :: l => ticks (tick s c m) l

/-- Every pass of the sequence finds the measurement period over. -/
def AllFire (s : State) : List (Nat × Nat) → Prop
  | [] => True
  | (c, m) :: l => Fires s m ∧ AllFire (tick s c m) l

/-- The value `rpm` that a measurement computes from `c` counted pulses. -/
def rpmOf (c : Nat) : Nat := u16 (u16 (c * 60) / RPS_MULTI)

/-- The part of well-formedness that the speed driver relies on: the speed
command and the floor are bytes, and the MinPwmFloor register agrees with the
internal floor. -/
def FloorInv (s : State) : Prop :=
  s.i2c_regs.r1 ≤ 255 ∧ s.pwmLevelMin ≤ 255 ∧ s.i2c_regs.r2 = s.pwmLevelMin

/-- The state after start-up, the two passes that stop the fan, and a third
measurement that counts 11 pulses (220 rpm): calibration is over. -/
def calibratedState : State :=
  loop (handlePcintTacho^[11] (loop (loop (setup 0) 3000) 6000)) 9000

/-- The calibrated state after the master has written `[0x02, 0x00]`: idle, floor 0. -/
def idleFloorZero : State :=
  (i2cReceiveEvent calibratedState 2 [0x02, 0x00]).getD calibratedState

/-- The calibrated state after the master has written `[0x00, 0x01]`. -/
def requestedState : State :=
  (i2cReceiveEvent calibratedState 2 [0x00, 0x01]).getD calibratedState

/-- The state after start-up and 53 measurements without a tacho pulse, 3000 ms
apart: the two passes that stop the fan and 51 ramp steps. -/
def rampTop : State :=
  (List.range 53).foldl (fun s i => loop s (3000 * (i + 1))) (setup 0)

/-- The state after the first `n` passes of an unending sequence of passes, each
given as (pulse count, clock value). -/
def runTicks (s : State) (sched : Nat → Nat × Nat) : Nat → State
  | 0 => s
  | n + 1 => tick (runTicks s sched n) (sched n).1 (sched n).2

/-- The unending sequence of passes 3000 ms apart, the first at 3000 ms, with the
pulse counts `counts`. -/
def periodic (counts : Nat → Nat) : Nat → Nat × Nat := fun n => (counts n, 3000 * (n + 1))

/-- The simulated fan of the spec's calibration-convergence property, as RPM
over the PWM level: at rest below level 100, and from level 100 on 50 rpm more
for every 5 units of PWM. -/
def simFanRpm (pwm : Nat) : Nat := if pwm < 100 then 0 else 50 * ((pwm - 100) / 5)

/-- The pulses the simulated fan gives in one measurement period of `RPS_MULTI`
seconds, one pulse per revolution as `loop()` counts them. -/
def simFanPulses (pwm : Nat) : Nat := simFanRpm pwm * RPS_MULTI / 60

/-- The firmware in closed loop with the simulated fan: `n` passes of `loop()`
3000 ms apart, each counting the pulses the fan gives at the PWM value on the
pin before the pass. -/
def simFanRun (s : State) : Nat → State
  | 0 => s
  | n + 1 => tick (simFanRun s n) (simFanPulses (simFanRun s n).pinPwm) (3000 * (n + 1))

/-- The Status register holds 0 or 1, it holds 1 while calibration is active,
and it holds 0 while the machine is Idle. -/
def StatusInv (s : State) : Prop :=
  s.i2c_regs.r0 ≤ 1 ∧ (s.pwmLevelMinCal = true → s.i2c_regs.r0 = 1) ∧
    (Idle s → s.i2c_regs.r0 = 0)

/-- States reached from `s` without the master writing SpeedCommand or
MinPwmFloor and without a calibration request: by passes of `loop()`, tacho
interrupts, read requests, the pointer byte of a write burst, data bytes of a
write burst processed while the pointer is 3 or more, and data bytes with bit 0
clear processed while the pointer is 0. -/
inductive Undisturbed (s : State) : State → Prop
  | start : Undisturbed s s
  | pass {t : State} (millis : Nat) : Undisturbed s t → Undisturbed s (loop t millis)
  | pulse {t : State} : Undisturbed s t → Undisturbed s (handlePcintTacho t)
  | read {t : State} : Undisturbed s t → Undisturbed s (i2cRequestEvent t).2
  | pointer {t : State} (p : Nat) :
      Undisturbed s t → Undisturbed s { t with blinkLed := true, reg_position := u8 p }
  | data {t : State} (b : Nat) :
      Undisturbed s t → 3 ≤ t.reg_position ∨ (t.reg_position = 0 ∧ b % 2 = 0) →
      Undisturbed s (advance (receiveData t b))

/-! ## Auxiliary lemmas -/

theorem u8_le (n : Nat) : u8 n ≤ 255 := by
  unfold u8
  omega

theorem u8_of_lt {n : Nat} (h : n < 256) : u8 n = n := by
  unfold u8
  omega

@[simp] theorem setFanSpeed_i2c_regs (s : State) (v : Nat) :
    (setFanSpeed s v).i2c_regs = s.i2c_regs := by
  unfold setFanSpeed; split <;> rfl

@[simp] theorem setFanSpeed_pwmLevelMin (s : State) (v : Nat) :
    (setFanSpeed s v).pwmLevelMin = s.pwmLevelMin := by
  unfold setFanSpeed; split <;> rfl

@[simp] theorem setFanSpeed_reg_position (s : State) (v : Nat) :
    (setFanSpeed s v).reg_position = s.reg_position := by
  unfold setFanSpeed; split <;> rfl

@[simp] theorem setFanSpeed_pwmLevelMinCal (s : State) (v : Nat) :
    (setFanSpeed s v).pwmLevelMinCal = s.pwmLevelMinCal := by
  unfold setFanSpeed; split <;> rfl

@[simp] theorem setFanSpeed_pwmLevelMinCalStart (s : State) (v : Nat) :
    (setFanSpeed s v).pwmLevelMinCalStart = s.pwmLevelMinCalStart := by
  unfold setFanSpeed; split <;> rfl

@[simp] theorem setFanSpeed_rps (s : State) (v : Nat) : (setFanSpeed s v).rps = s.rps := by
  unfold setFanSpeed; split <;> rfl

@[simp] theorem setFanSpeed_rpm (s : State) (v : Nat) : (setFanSpeed s v).rpm = s.rpm := by
  unfold setFanSpeed; split <;> rfl

@[simp] theorem setFanSpeed_now (s : State) (v : Nat) : (setFanSpeed s v).now = s.now := by
  unfold setFanSpeed; split <;> rfl

@[simp] theorem setFanSpeed_timeNextRpmCalc (s : State) (v : Nat) :
    (setFanSpeed s v).timeNextRpmCalc = s.timeNextRpmCalc := by
  unfold setFanSpeed; split <;> rfl

@[simp] theorem setFanSpeed_blinkLed (s : State) (v : Nat) :
    (setFanSpeed s v).blinkLed = s.blinkLed := by
  unfold setFanSpeed; split <;> rfl

@[simp] theorem setFanSpeed_pinLed (s : State) (v : Nat) :
    (setFanSpeed s v).pinLed = s.pinLed := by
  unfold setFanSpeed; split <;> rfl

@[simp] theorem setFanSpeed_zero_pwmLevel (s : State) : (setFanSpeed s 0).pwmLevel = 0 := by
  simp [setFanSpeed]

theorem FloorInv_setFanSpeed {s : State} (v : Nat) (h : FloorInv s) :
    FloorInv (setFanSpeed s v) := by
  unfold FloorInv at *
  simpa using h

theorem FloorInv_advance {s : State} (h : FloorInv s) : FloorInv (advance s) := h

theorem FloorInv_receiveData {s : State} (b : Nat) (h : FloorInv s) :
    FloorInv (receiveData s b) := by
  obtain ⟨h1, h2, h3⟩ := h
  unfold receiveData FloorInv
  dsimp only
  split_ifs <;> simp [h1, h2, h3, u8_le]

theorem FloorInv_receiveLoop (n : Nat) : ∀ (s s1 : State) (rx : List Nat),
    FloorInv s → receiveLoop n s rx = some s1 → FloorInv s1 := by
  induction n with
  | zero =>
    intro s s1 rx h hr
    simp only [receiveLoop, Option.some.injEq] at hr
    exact hr ▸ h
  | succ n ih =>
    intro s s1 rx h hr
    cases rx with
    | nil => simp [receiveLoop] at hr
    | cons b rx =>
      simp only [receiveLoop] at hr
      exact ih _ s1 rx (FloorInv_advance (FloorInv_receiveData b h)) hr

theorem FloorInv_i2cReceiveEvent {s s1 : State} (howMany : Nat) (rx : List Nat)
    (h : FloorInv s) (hr : i2cReceiveEvent s howMany rx = some s1) : FloorInv s1 := by
  unfold i2cReceiveEvent at hr
  split_ifs at hr with hc
  · simp only [Option.some.injEq] at hr
    exact hr ▸ h
  · cases rx with
    | nil => simp at hr
    | cons p rx =>
      simp only at hr
      split_ifs at hr with h0
      · simp only [Option.some.injEq] at hr
        exact hr ▸ h
      · exact FloorInv_receiveLoop _ _ s1 rx (by exact h) hr

theorem FloorInv_calibrationStep {s : State} (h : FloorInv s) : FloorInv (calibrationStep s) := by
  obtain ⟨h1, h2, h3⟩ := h
  unfold calibrationStep FloorInv
  dsimp only
  split_ifs <;> simp [h1, h2, h3, u8_le]

theorem FloorInv_measurement {s : State} (h : FloorInv s) : FloorInv (measurement s) := by
  unfold measurement
  exact FloorInv_calibrationStep h

theorem FloorInv_serviceBlink {s : State} (h : FloorInv s) : FloorInv (serviceBlink s) := by
  unfold serviceBlink
  split_ifs
  · exact h
  · exact h

theorem FloorInv_loop {s : State} (millis : Nat) (h : FloorInv s) : FloorInv (loop s millis) := by
  have hb := FloorInv_serviceBlink h
  unfold loop
  dsimp only
  split_ifs
  · exact FloorInv_measurement (by exact hb)
  · exact hb

theorem FloorInv_setup (millis : Nat) : FloorInv (setup millis) := by
  simp [setup, FloorInv]

theorem Reachable.floorInv {s : State} (h : Reachable s) : FloorInv s := by
  induction h with
  | init millis => exact FloorInv_setup millis
  | write rx _ hr ih => exact FloorInv_i2cReceiveEvent _ rx ih hr
  | read _ ih => exact ih
  | pulse _ ih => exact ih
  | pass millis _ ih => exact FloorInv_loop millis ih


theorem longToU8_natCast (n : Nat) : longToU8 (n : Int) = n % 256 := by
  unfold longToU8
  omega

theorem map_speed (speed f : Nat) (hf : f ≤ 255) :
    map (speed : Int) 0 255 (f : Int) 255 = ((f + speed * (255 - f) / 255 : Nat) : Int) := by
  unfold map
  have h1 : ((speed : Int) - 0) * (255 - (f : Int)) = ((speed * (255 - f) : Nat) : Int) := by
    push_cast [Nat.cast_sub hf]
    ring
  rw [h1, Int.tdiv_eq_ediv (Int.natCast_nonneg _) (by norm_num)]
  push_cast
  ring_nf

theorem remap_le (speed f : Nat) (hs : speed ≤ 255) (hf : f ≤ 255) :
    f + speed * (255 - f) / 255 ≤ 255 := by
  have h : speed * (255 - f) ≤ 255 * (255 - f) := Nat.mul_le_mul_right _ hs
  have h2 : speed * (255 - f) / 255 ≤ 255 - f := by
    apply Nat.div_le_of_le_mul
    exact h
  omega

theorem setFanSpeed_pwmLevel (st : State) (speed : Nat) (hs : speed ≤ 255)
    (hf : st.pwmLevelMin ≤ 255) :
    (setFanSpeed st speed).pwmLevel = computeActualLevel speed st.pwmLevelMin := by
  unfold setFanSpeed computeActualLevel
  by_cases h0 : speed = 0
  · simp [h0]
  · have hpos : speed > 0 := Nat.pos_of_ne_zero h0
    have hle := remap_le speed st.pwmLevelMin hs hf
    simp only [hpos, if_true, h0, if_false, map_speed speed st.pwmLevelMin hf, longToU8_natCast]
    omega

theorem receiveData_locked (s : State) (b : Nat)
    (h : s.pwmLevelMinCalStart = true ∨ s.pwmLevelMinCal = true) : receiveData s b = s := by
  unfold receiveData
  rcases h with h | h <;> simp [h]

theorem receiveLoop_locked (n : Nat) : ∀ (s : State) (rx : List Nat),
    (s.pwmLevelMinCalStart = true ∨ s.pwmLevelMinCal = true) → n ≤ rx.length →
    ∃ s1, receiveLoop n s rx = some s1 ∧ s1 = { s with reg_position := s1.reg_position } := by
  induction n with
  | zero => intro s rx _ _; exact ⟨s, rfl, rfl⟩
  | succ n ih =>
    intro s rx hl hn
    cases rx with
    | nil => simp at hn
    | cons b rx =>
      have hn1 : n ≤ rx.length := by simpa using hn
      have hl1 : (advance s).pwmLevelMinCalStart = true ∨ (advance s).pwmLevelMinCal = true := by
        simpa [advance] using hl
      obtain ⟨s1, h1, h2⟩ := ih (advance s) rx hl1 hn1
      refine ⟨s1, ?_, ?_⟩
      · simp [receiveLoop, receiveData_locked s b hl, h1]
      · rw [h2]
        simp [advance]

theorem i2cReceiveEvent_cons (s : State) (p : Nat) (rx : List Nat) (h : rx.length + 1 ≤ 16) :
    i2cReceiveEvent s (rx.length + 1) (p :: rx) =
      if rx.length = 0 then some { s with blinkLed := true, reg_position := u8 p }
      else receiveLoop rx.length { s with blinkLed := true, reg_position := u8 p } rx := by
  have hnot : ¬ (rx.length + 1 < 1 ∨ rx.length + 1 > TWI_RX_BUFFER_SIZE) := by
    simp only [TWI_RX_BUFFER_SIZE]
    omega
  unfold i2cReceiveEvent
  rw [if_neg hnot]
  rfl

/-! ## Write lockout -/

/-- C1: in a state where calibration is armed or active, a write burst of 1 to
16 arbitrary bytes leaves the Status, SpeedCommand and MinPwmFloor registers, the
internal floor and the PWM level as they were; the state after the burst differs
from the state before it at most in the register pointer and the blink request. -/
theorem write_lockout (s : State) (bytes : List Nat)
    (hcal : s.pwmLevelMinCalStart = true ∨ s.pwmLevelMinCal = true)
    (h1 : 1 ≤ bytes.length) (h16 : bytes.length ≤ 16) :
    ∃ s1, i2cReceiveEvent s bytes.length bytes = some s1 ∧
      s1.i2c_regs.r0 = s.i2c_regs.r0 ∧ s1.i2c_regs.r1 = s.i2c_regs.r1 ∧
      s1.i2c_regs.r2 = s.i2c_regs.r2 ∧ s1.pwmLevelMin = s.pwmLevelMin ∧
      s1.pwmLevel = s.pwmLevel ∧
      s1 = { s with reg_position := s1.reg_position, blinkLed := s1.blinkLed } := by
  cases bytes with
  | nil => simp at h1
  | cons p rx =>
    have h16r : rx.length + 1 ≤ 16 := by simpa using h16
    rw [List.length_cons, i2cReceiveEvent_cons s p rx h16r]
    by_cases h0 : rx.length = 0
    · rw [if_pos h0]
      exact ⟨_, rfl, rfl, rfl, rfl, rfl, rfl, rfl⟩
    · rw [if_neg h0]
      obtain ⟨s1, hs1, heq⟩ := receiveLoop_locked rx.length
        { s with blinkLed := true, reg_position := u8 p } rx (by simpa using hcal) (le_refl _)
      refine ⟨s1, hs1, ?_⟩
      rw [heq]
      simp

/-- Witness of C1: the state after `setup()` is armed, and a burst of four bytes
aimed at the Status, SpeedCommand and MinPwmFloor registers changes none of them. -/
theorem write_lockout_witness :
    ∃ s1, i2cReceiveEvent (setup 0) 4 [0, 1, 200, 7] = some s1 ∧
      s1.i2c_regs.r0 = (setup 0).i2c_regs.r0 ∧ s1.i2c_regs.r1 = (setup 0).i2c_regs.r1 ∧
      s1.i2c_regs.r2 = (setup 0).i2c_regs.r2 ∧ s1.pwmLevelMin = (setup 0).pwmLevelMin ∧
      s1.pwmLevel = (setup 0).pwmLevel ∧
      s1 = { setup 0 with reg_position := s1.reg_position, blinkLed := s1.blinkLed } :=
  write_lockout (setup 0) [0, 1, 200, 7] (Or.inl rfl) (by decide) (by decide)

/-! ## Speed driver -/

/-- C2: for a requested speed `speed` in 1..255 and a floor `f` in 0..255, the
PWM level that `setFanSpeed` sets is `f + speed * (255 - f) / 255`, the linear
remap of `[0,255]` onto `[f,255]`, and it lies between `f` and 255; the same
value is written to the PWM pin. -/
theorem setFanSpeed_floor (st : State) (speed : Nat) (h1 : 1 ≤ speed) (hs : speed ≤ 255)
    (hf : st.pwmLevelMin ≤ 255) :
    (setFanSpeed st speed).pwmLevel = st.pwmLevelMin + speed * (255 - st.pwmLevelMin) / 255 ∧
      st.pwmLevelMin ≤ (setFanSpeed st speed).pwmLevel ∧
      (setFanSpeed st speed).pwmLevel ≤ 255 ∧
      (setFanSpeed st speed).pinPwm = (setFanSpeed st speed).pwmLevel := by
  have h := setFanSpeed_pwmLevel st speed hs hf
  have hle := remap_le speed st.pwmLevelMin hs hf
  have h0 : speed ≠ 0 := by omega
  simp only [computeActualLevel, h0, if_false] at h
  refine ⟨h, ?_, ?_, ?_⟩
  · rw [h]; exact Nat.le_add_right _ _
  · rw [h]; exact hle
  · simp [setFanSpeed]

/-- Witness of C2: speed 128 over the floor 100 gives the level 177. -/
theorem setFanSpeed_floor_witness :
    (setFanSpeed { setup 0 with pwmLevelMin := 100 } 128).pwmLevel = 100 + 128 * (255 - 100) / 255 ∧
      100 ≤ (setFanSpeed { setup 0 with pwmLevelMin := 100 } 128).pwmLevel ∧
      (setFanSpeed { setup 0 with pwmLevelMin := 100 } 128).pwmLevel ≤ 255 ∧
      (setFanSpeed { setup 0 with pwmLevelMin := 100 } 128).pinPwm =
        (setFanSpeed { setup 0 with pwmLevelMin := 100 } 128).pwmLevel :=
  setFanSpeed_floor { setup 0 with pwmLevelMin := 100 } 128 (by decide) (by decide) (by decide)

/-- C3: for a fixed floor in 0..255 the level that `setFanSpeed` sets is
non-decreasing in the requested speed over 0..255, it is 0 for speed 0 and 255
for speed 255. -/
theorem setFanSpeed_monotone (st : State) (hf : st.pwmLevelMin ≤ 255) :
    (∀ s1 s2 : Nat, s1 ≤ s2 → s2 ≤ 255 →
        (setFanSpeed st s1).pwmLevel ≤ (setFanSpeed st s2).pwmLevel) ∧
      (setFanSpeed st 0).pwmLevel = 0 ∧ (setFanSpeed st 255).pwmLevel = 255 := by
  refine ⟨?_, ?_, ?_⟩
  · intro s1 s2 h12 h2
    rw [setFanSpeed_pwmLevel st s1 (le_trans h12 h2) hf, setFanSpeed_pwmLevel st s2 h2 hf]
    unfold computeActualLevel
    by_cases h0 : s1 = 0
    · simp [h0]
    · have h0' : s2 ≠ 0 := by omega
      simp only [h0, h0', if_false]
      have : s1 * (255 - st.pwmLevelMin) / 255 ≤ s2 * (255 - st.pwmLevelMin) / 255 :=
        Nat.div_le_div_right (Nat.mul_le_mul_right _ h12)
      omega
  · simp [setFanSpeed]
  · rw [setFanSpeed_pwmLevel st 255 (le_refl _) hf]
    unfold computeActualLevel
    simp only [show (255 : Nat) ≠ 0 by decide, if_false]
    rw [Nat.mul_div_cancel_left _ (by decide : 0 < 255)]
    omega

/-- Witness of C3: the floor 100. -/
theorem setFanSpeed_monotone_witness :
    (∀ s1 s2 : Nat, s1 ≤ s2 → s2 ≤ 255 →
        (setFanSpeed { setup 0 with pwmLevelMin := 100 } s1).pwmLevel ≤
          (setFanSpeed { setup 0 with pwmLevelMin := 100 } s2).pwmLevel) ∧
      (setFanSpeed { setup 0 with pwmLevelMin := 100 } 0).pwmLevel = 0 ∧
      (setFanSpeed { setup 0 with pwmLevelMin := 100 } 255).pwmLevel = 255 :=
  setFanSpeed_monotone { setup 0 with pwmLevelMin := 100 } (by decide)

/-! ## Accepted writes -/

theorem Reachable.pulses {s : State} (n : Nat) (h : Reachable s) :
    Reachable (handlePcintTacho^[n] s) := by
  induction n with
  | zero => exact h
  | succ n ih =>
    rw [Function.iterate_succ_apply']
    exact Reachable.pulse ih

theorem calibratedState_reachable : Reachable calibratedState :=
  Reachable.pass 9000
    (Reachable.pulses 11 (Reachable.pass 6000 (Reachable.pass 3000 (Reachable.init 0))))

theorem idleFloorZero_reachable : Reachable idleFloorZero :=
  Reachable.write [0x02, 0x00] calibratedState_reachable (by decide)

theorem i2cReceiveEvent_pair (s : State) (p b : Nat) :
    i2cReceiveEvent s 2 [p, b] =
      some (advance (receiveData { s with blinkLed := true, reg_position := u8 p } b)) := by
  rfl

theorem i2cReceiveEvent_single (s : State) (p : Nat) :
    i2cReceiveEvent s 1 [p] = some { s with blinkLed := true, reg_position := u8 p } := by
  rfl

theorem receiveData_speed (s : State) (b : Nat) (hidle : Idle s) (hp : s.reg_position = 1) :
    receiveData s b =
      setFanSpeed { s with i2c_regs := { s.i2c_regs with r1 := u8 b } } (u8 b) := by
  obtain ⟨hcal, hstart⟩ := hidle
  simp [receiveData, hp, hcal, hstart]

theorem receiveData_floor (s : State) (b : Nat) (hidle : Idle s) (hp : s.reg_position = 2) :
    receiveData s b =
      setFanSpeed { s with i2c_regs := { s.i2c_regs with r2 := u8 b }, pwmLevelMin := u8 b }
        s.i2c_regs.r1 := by
  obtain ⟨hcal, hstart⟩ := hidle
  simp [receiveData, hp, hcal, hstart]

/-- C4: in a reachable Idle state, for every byte `b`, the burst `[0x01, b]`
stores `b` in the SpeedCommand register and the burst `[0x02, b]` stores `b` in
the MinPwmFloor register and in the internal floor, leaving SpeedCommand as it
was; after either burst the PWM level is the remap level of the SpeedCommand and
MinPwmFloor registers of the new state.  With floor 0 the burst `[0x01, 0x80]`
gives PWM level 128, and a following read of register 1 returns `0x80`. -/
theorem accepted_writes_recompute (s : State) (b : Nat) (hr : Reachable s) (hidle : Idle s)
    (hb : b < 256) :
    (∃ s1, i2cReceiveEvent s 2 [0x01, b] = some s1 ∧ s1.i2c_regs.r1 = b ∧
        s1.pwmLevel = computeActualLevel s1.i2c_regs.r1 s1.i2c_regs.r2 ∧
        s1.pinPwm = s1.pwmLevel) ∧
      (∃ s2, i2cReceiveEvent s 2 [0x02, b] = some s2 ∧ s2.i2c_regs.r2 = b ∧
        s2.pwmLevelMin = b ∧ s2.i2c_regs.r1 = s.i2c_regs.r1 ∧
        s2.pwmLevel = computeActualLevel s2.i2c_regs.r1 s2.i2c_regs.r2 ∧
        s2.pinPwm = s2.pwmLevel) ∧
      (s.pwmLevelMin = 0 →
        ∃ s1, i2cReceiveEvent s 2 [0x01, 0x80] = some s1 ∧ s1.pwmLevel = 128 ∧
          readRegister s1 1 = some 0x80) := by
  obtain ⟨hr1, hmin, hr2⟩ := hr.floorInv
  have hb8 : u8 b = b := u8_of_lt hb
  have hi1 : ∀ p, Idle { s with blinkLed := true, reg_position := u8 p } := fun _ => hidle
  refine ⟨⟨_, i2cReceiveEvent_pair s 1 b, ?_, ?_, ?_⟩,
    ⟨_, i2cReceiveEvent_pair s 2 b, ?_, ?_, ?_, ?_, ?_⟩, ?_⟩
  · rw [receiveData_speed _ b (hi1 1) rfl]
    simp [advance, hb8]
  · rw [receiveData_speed _ b (hi1 1) rfl]
    simp only [advance, setFanSpeed_i2c_regs]
    rw [setFanSpeed_pwmLevel _ _ (u8_le b) (by exact hmin), hr2]
  · rw [receiveData_speed _ b (hi1 1) rfl]
    simp [advance, setFanSpeed]
  · rw [receiveData_floor _ b (hi1 2) rfl]
    simp [advance, hb8]
  · rw [receiveData_floor _ b (hi1 2) rfl]
    simp [advance, hb8]
  · rw [receiveData_floor _ b (hi1 2) rfl]
    simp [advance]
  · rw [receiveData_floor _ b (hi1 2) rfl]
    simp only [advance, setFanSpeed_i2c_regs]
    rw [setFanSpeed_pwmLevel _ _ (by exact hr1) (u8_le b)]
  · rw [receiveData_floor _ b (hi1 2) rfl]
    simp [advance, setFanSpeed]
  · intro h0
    refine ⟨_, i2cReceiveEvent_pair s 1 0x80, ?_, ?_⟩
    · rw [receiveData_speed _ 0x80 (hi1 1) rfl]
      simp only [advance]
      rw [setFanSpeed_pwmLevel _ _ (u8_le _) (by exact hmin)]
      simp only [h0]
      decide
    · rw [receiveData_speed _ 0x80 (hi1 1) rfl]
      simp [readRegister, i2cReceiveEvent_single, i2cRequestEvent, Regs.read, advance, u8]

/-- Witness of C4: the calibrated state with floor 0 is reachable and Idle. -/
theorem accepted_writes_recompute_witness :
    ∃ s1, i2cReceiveEvent idleFloorZero 2 [0x01, 0x80] = some s1 ∧ s1.pwmLevel = 128 ∧
      readRegister s1 1 = some 0x80 :=
  (accepted_writes_recompute idleFloorZero 0x80 idleFloorZero_reachable (by decide)
    (by decide)).2.2 (by decide)

/-! ## Read requests and the register pointer -/

theorem i2cRequestEvent_in_range (s : State) (h : s.reg_position < 6) :
    ∃ v, (i2cRequestEvent s).1 = some v ∧
      (i2cRequestEvent s).2 = { s with reg_position := (s.reg_position + 1) % 6 } := by
  have hp : s.reg_position = 0 ∨ s.reg_position = 1 ∨ s.reg_position = 2 ∨
      s.reg_position = 3 ∨ s.reg_position = 4 ∨ s.reg_position = 5 := by omega
  rcases hp with hp | hp | hp | hp | hp | hp <;>
    simp [i2cRequestEvent, Regs.read, advance, u8, reg_size, hp]

/-- C5: the pointer-only write `[0x06]` to the state after `setup()` gives a
reachable state with pointer 6; the read request that follows indexes the
register array past its six cells, so the byte sent is none of the six Register
File cells.  The pointer then returns to 0 and nothing else changes. -/
theorem read_request_past_array :
    ∃ s, Reachable s ∧ i2cReceiveEvent (setup 0) 1 [6] = some s ∧ s.reg_position = 6 ∧
      (i2cRequestEvent s).1 = none ∧ (i2cRequestEvent s).2 = { s with reg_position := 0 } :=
  ⟨{ setup 0 with blinkLed := true, reg_position := 6 },
    Reachable.write [6] (Reachable.init 0) (by decide), by decide, rfl, by decide, by decide⟩

theorem receiveData_reg_position (s : State) (b : Nat) :
    (receiveData s b).reg_position = s.reg_position := by
  unfold receiveData
  dsimp only
  split_ifs <;> simp

theorem advance_reg_position (s : State) (h : s.reg_position < 6) :
    (advance s).reg_position = (s.reg_position + 1) % 6 := by
  simp only [advance, u8, reg_size]
  split_ifs <;> omega

theorem ByteOp.run_reg_position (s : State) (op : ByteOp) (h : s.reg_position < 6) :
    (op.run s).reg_position = (s.reg_position + 1) % 6 := by
  cases op with
  | read => exact advance_reg_position s h
  | data b =>
    have h1 : (receiveData s b).reg_position < 6 := by
      rw [receiveData_reg_position]; exact h
    simp only [ByteOp.run]
    rw [advance_reg_position _ h1, receiveData_reg_position]

/-- C6: from a pointer `p` in 0..5, after any sequence of `n` byte operations,
read requests and data bytes of a write in any mix, the pointer is
`(p + n) mod 6`; after exactly 6 operations it is `p` again. -/
theorem pointer_wraparound (s : State) (ops : List ByteOp) (hp : s.reg_position < 6) :
    (runOps s ops).reg_position = (s.reg_position + ops.length) % 6 ∧
      (ops.length = 6 → (runOps s ops).reg_position = s.reg_position) := by
  have key : ∀ (ops : List ByteOp) (s : State), s.reg_position < 6 →
      (runOps s ops).reg_position = (s.reg_position + ops.length) % 6 := by
    intro ops
    induction ops with
    | nil =>
      intro s hs
      simp only [runOps, List.foldl_nil, List.length_nil, Nat.add_zero]
      exact (Nat.mod_eq_of_lt hs).symm
    | cons op ops ih =>
      intro s hs
      have h1 := ByteOp.run_reg_position s op hs
      have h2 : (op.run s).reg_position < 6 := by
        rw [h1]; exact Nat.mod_lt _ (by decide)
      have h3 := ih (op.run s) h2
      simp only [runOps, List.foldl_cons, List.length_cons] at h3 ⊢
      rw [h3, h1]
      omega
  refine ⟨key ops s hp, ?_⟩
  intro h6
  rw [key ops s hp, h6]
  omega

/-- Witness of C6: six operations from pointer 4, three reads and three data bytes. -/
theorem pointer_wraparound_witness :
    (runOps { setup 0 with reg_position := 4 }
        [ByteOp.read, ByteOp.data 7, ByteOp.read, ByteOp.data 1, ByteOp.data 255,
          ByteOp.read]).reg_position = (4 + 6) % 6 ∧
      ((6 : Nat) = 6 →
        (runOps { setup 0 with reg_position := 4 }
          [ByteOp.read, ByteOp.data 7, ByteOp.read, ByteOp.data 1, ByteOp.data 255,
            ByteOp.read]).reg_position = 4) :=
  pointer_wraparound { setup 0 with reg_position := 4 }
    [ByteOp.read, ByteOp.data 7, ByteOp.read, ByteOp.data 1, ByteOp.data 255, ByteOp.read]
    (by decide)

/-! ## Rejected write transactions -/

/-- C7: a write transaction whose byte count is 0 or greater than 16 leaves the
whole state as it was, whatever the receive buffer holds: registers, pointer,
calibration flags, floor, PWM level and blink request. -/
theorem oversized_or_empty_write_ignored (s : State) (howMany : Nat) (rx : List Nat)
    (h : howMany = 0 ∨ 16 < howMany) : i2cReceiveEvent s howMany rx = some s := by
  have hc : howMany < 1 ∨ howMany > TWI_RX_BUFFER_SIZE := by
    simp only [TWI_RX_BUFFER_SIZE]
    omega
  unfold i2cReceiveEvent
  rw [if_pos hc]

/-- Witness of C7: seventeen bytes aimed at the SpeedCommand register. -/
theorem oversized_or_empty_write_ignored_witness :
    i2cReceiveEvent calibratedState 17 [1, 255, 9, 9, 9, 9, 9, 9, 9, 9, 9, 9, 9, 9, 9, 9, 9] =
      some calibratedState :=
  oversized_or_empty_write_ignored calibratedState 17
    [1, 255, 9, 9, 9, 9, 9, 9, 9, 9, 9, 9, 9, 9, 9, 9, 9] (Or.inr (by decide))

/-! ## Measurement ticks -/

theorem serviceBlink_frame (s : State) :
    serviceBlink s = { s with pinLed := (serviceBlink s).pinLed, blinkLed := false } := by
  unfold serviceBlink
  cases hb : s.blinkLed
  · simp only [Bool.false_eq_true, if_false]
    rw [← hb]
  · simp

theorem loop_fires (s : State) (millis : Nat) (h : Fires s millis) :
    loop s millis =
      measurement { s with now := u32 millis, pinLed := (serviceBlink s).pinLed,
                           blinkLed := false } := by
  unfold Fires at h
  unfold loop
  dsimp only
  rw [serviceBlink_frame s]
  dsimp only
  rw [if_pos h]

theorem tick_fires (s : State) (c millis : Nat) (h : Fires s millis) :
    tick s c millis =
      calibrationStep
        { s with
          rps := 0, rpm := rpmOf c, now := u32 millis,
          timeNextRpmCalc := u32 (u32 millis + 1000 * RPS_MULTI),
          i2c_regs := { s.i2c_regs with
            r3 := u8 ((c / RPS_MULTI) &&& 0xff), r4 := u8 (rpmOf c &&& 0xff),
            r5 := u8 ((rpmOf c >>> 8) &&& 0xff) },
          pinLed := (serviceBlink { s with rps := c }).pinLed, blinkLed := false } := by
  unfold tick
  rw [loop_fires _ _ (by exact h)]
  rfl

theorem tick_stopRequested (s : State) (c millis : Nat) (hf : Fires s millis)
    (h : StopRequested s) :
    Stopping (tick s c millis) ∧ (tick s c millis).pwmLevel = 0 ∧
      (tick s c millis).i2c_regs.r0 = bitSet0 s.i2c_regs.r0 := by
  obtain ⟨h1, h2⟩ := h
  rw [tick_fires s c millis hf]
  simp [calibrationStep, Stopping, h1, h2]

theorem tick_stopping (s : State) (c millis : Nat) (hf : Fires s millis) (h : Stopping s) :
    Ramping (tick s c millis) ∧ (tick s c millis).pwmLevel = s.pwmLevel ∧
      (tick s c millis).i2c_regs.r0 = s.i2c_regs.r0 := by
  obtain ⟨h1, h2⟩ := h
  rw [tick_fires s c millis hf]
  simp [calibrationStep, Ramping, h1, h2]

theorem tick_ramping_low (s : State) (c millis : Nat) (hf : Fires s millis) (h : Ramping s)
    (hrpm : rpmOf c ≤ 200) :
    Ramping (tick s c millis) ∧ (tick s c millis).pwmLevel = u8 (s.pwmLevel + 5) ∧
      (tick s c millis).i2c_regs.r0 = bitSet0 s.i2c_regs.r0 ∧
      (tick s c millis).pwmLevelMin = s.pwmLevelMin := by
  obtain ⟨h1, h2⟩ := h
  have hn : ¬ rpmOf c > 200 := by omega
  rw [tick_fires s c millis hf]
  simp [calibrationStep, Ramping, h1, h2, hn]

theorem tick_ramping_high (s : State) (c millis : Nat) (hf : Fires s millis) (h : Ramping s)
    (hrpm : 200 < rpmOf c) :
    Idle (tick s c millis) ∧ (tick s c millis).pwmLevel = 0 ∧
      (tick s c millis).i2c_regs.r0 = bitClear0 s.i2c_regs.r0 ∧
      (tick s c millis).pwmLevelMin = u8 (s.pwmLevel + 5) ∧
      (tick s c millis).i2c_regs.r2 = u8 (s.pwmLevel + 5) := by
  obtain ⟨h1, h2⟩ := h
  rw [tick_fires s c millis hf]
  simp [calibrationStep, Idle, h1, h2, hrpm]

theorem readRegister_zero (s : State) : readRegister s 0 = some s.i2c_regs.r0 := by
  simp [readRegister, i2cReceiveEvent_single, i2cRequestEvent, Regs.read, u8]

theorem ticks_ramping_low (ramp : List (Nat × Nat)) : ∀ (s : State), Ramping s →
    s.i2c_regs.r0 = 1 → AllFire s ramp → (∀ cm ∈ ramp, rpmOf cm.1 ≤ 200) →
    Ramping (ticks s ramp) ∧ (ticks s ramp).i2c_regs.r0 = 1 := by
  induction ramp with
  | nil => intro s h h0 _ _; exact ⟨h, h0⟩
  | cons cm ramp ih =>
    intro s h h0 hf hlow
    obtain ⟨c, m⟩ := cm
    obtain ⟨hf1, hf2⟩ := hf
    have hc : rpmOf c ≤ 200 := hlow (c, m) (List.mem_cons_self _ _)
    obtain ⟨hr, _, hr0, _⟩ := tick_ramping_low s c m hf1 h hc
    have hr0' : (tick s c m).i2c_regs.r0 = 1 := by
      rw [hr0, h0]; decide
    exact ih (tick s c m) hr hr0' hf2 (fun cm hcm => hlow cm (List.mem_cons_of_mem _ hcm))

theorem receiveData_status (s : State) (b : Nat) (hidle : Idle s) (hp : s.reg_position = 0) :
    receiveData s b =
      { s with i2c_regs := { s.i2c_regs with r0 := u8 (b &&& 1) },
               pwmLevelMinCalStart := bitRead0 (u8 (b &&& 1)) } := by
  obtain ⟨hcal, hstart⟩ := hidle
  unfold receiveData
  dsimp only
  rw [if_pos ⟨hp, hcal, hstart⟩]
  cases hbit : bitRead0 (u8 (b &&& 1))
  · simp only [Bool.false_eq_true, if_false]
    rw [← hstart]
  · simp

/-! ## Calibration request -/

/-- C8: from an Idle state the write `[0x00, 0x01]` sets the Status register to
1 and leaves the machine in StopRequested; the first measurement tick after it
sets the PWM level to 0 and leaves it in Stopping, the second in Ramping; a read
of register 0 returns `0x01` after the write, after both of these ticks and
after every Ramping tick that measures at most 200 rpm, and `0x00` after the
first Ramping tick that measures more than 200 rpm, which leaves the machine
Idle. -/
theorem calibration_request_scenario (s : State) (hidle : Idle s) :
    ∃ sw, i2cReceiveEvent s 2 [0x00, 0x01] = some sw ∧
      sw.i2c_regs.r0 = 1 ∧ StopRequested sw ∧ readRegister sw 0 = some 0x01 ∧
      ∀ c1 m1, Fires sw m1 →
        (tick sw c1 m1).pwmLevel = 0 ∧ Stopping (tick sw c1 m1) ∧
        readRegister (tick sw c1 m1) 0 = some 0x01 ∧
        ∀ c2 m2, Fires (tick sw c1 m1) m2 →
          (tick (tick sw c1 m1) c2 m2).pwmLevel = 0 ∧
          Ramping (tick (tick sw c1 m1) c2 m2) ∧
          readRegister (tick (tick sw c1 m1) c2 m2) 0 = some 0x01 ∧
          ∀ ramp : List (Nat × Nat), AllFire (tick (tick sw c1 m1) c2 m2) ramp →
            (∀ cm ∈ ramp, rpmOf cm.1 ≤ 200) →
            Ramping (ticks (tick (tick sw c1 m1) c2 m2) ramp) ∧
            readRegister (ticks (tick (tick sw c1 m1) c2 m2) ramp) 0 = some 0x01 ∧
            ∀ c m, Fires (ticks (tick (tick sw c1 m1) c2 m2) ramp) m → 200 < rpmOf c →
              Idle (tick (ticks (tick (tick sw c1 m1) c2 m2) ramp) c m) ∧
              readRegister (tick (ticks (tick (tick sw c1 m1) c2 m2) ramp) c m) 0 =
                some 0x00 := by
  have hw : ∃ sw, i2cReceiveEvent s 2 [0x00, 0x01] = some sw ∧ sw.i2c_regs.r0 = 1 ∧
      StopRequested sw := by
    have hi : Idle { s with blinkLed := true, reg_position := u8 0 } := hidle
    refine ⟨_, i2cReceiveEvent_pair s 0 1, ?_⟩
    rw [receiveData_status _ 1 hi rfl]
    have hbit : bitRead0 (u8 (1 &&& 1)) = true := by decide
    have hone : u8 (1 &&& 1) = 1 := by decide
    rw [hbit, hone]
    exact ⟨rfl, rfl, hidle.1⟩
  have hset : bitSet0 1 = 1 := by decide
  have hclear : bitClear0 1 = 0 := by decide
  obtain ⟨sw, hsw, h0, hsr⟩ := hw
  refine ⟨sw, hsw, h0, hsr, ?_, ?_⟩
  · rw [readRegister_zero, h0]
  intro c1 m1 hf1
  obtain ⟨hst, hp1, hr1⟩ := tick_stopRequested sw c1 m1 hf1 hsr
  rw [h0, hset] at hr1
  refine ⟨hp1, hst, ?_, ?_⟩
  · rw [readRegister_zero, hr1]
  intro c2 m2 hf2
  obtain ⟨hrm, hp2, hr2⟩ := tick_stopping (tick sw c1 m1) c2 m2 hf2 hst
  rw [hr1] at hr2
  refine ⟨hp2.trans hp1, hrm, ?_, ?_⟩
  · rw [readRegister_zero, hr2]
  intro ramp hfire hlow
  obtain ⟨hrr, hr3⟩ := ticks_ramping_low ramp _ hrm hr2 hfire hlow
  refine ⟨hrr, ?_, ?_⟩
  · rw [readRegister_zero, hr3]
  intro c m hf hhigh
  obtain ⟨hid, _, hr4, _, _⟩ := tick_ramping_high _ c m hf hrr hhigh
  refine ⟨hid, ?_⟩
  rw [readRegister_zero, hr4, hr3, hclear]

/-- Witness of C8: the request written to the calibrated state, the two ticks
that stop the fan, one ramp tick without pulses and one with 11 pulses (220 rpm). -/
theorem calibration_request_scenario_witness :
    ∃ sw, i2cReceiveEvent calibratedState 2 [0x00, 0x01] = some sw ∧
      readRegister sw 0 = some 0x01 ∧
      Ramping (tick (tick sw 0 12000) 0 15000) ∧
      readRegister (ticks (tick (tick sw 0 12000) 0 15000) [(0, 18000)]) 0 = some 0x01 ∧
      readRegister (tick (ticks (tick (tick sw 0 12000) 0 15000) [(0, 18000)]) 11 21000) 0 =
        some 0x00 := by
  obtain ⟨sw, hsw, _, _, hread, hrest⟩ :=
    calibration_request_scenario calibratedState (by decide)
  have hsw1 : sw = requestedState := Option.some.inj (hsw.symm.trans (by decide))
  subst hsw1
  obtain ⟨_, _, _, h2⟩ := hrest 0 12000 (by decide)
  obtain ⟨_, hramp, _, h3⟩ := h2 0 15000 (by decide)
  obtain ⟨_, hr1, h4⟩ := h3 [(0, 18000)] ⟨by decide, trivial⟩ (by decide)
  exact ⟨_, hsw, hread, hramp, hr1, (h4 11 21000 (by decide) (by decide)).2⟩

/-! ## Calibration success -/

theorem Reachable.passes (l : List Nat) : ∀ {s : State}, Reachable s →
    Reachable (l.foldl (fun s i => loop s (3000 * (i + 1))) s) := by
  induction l with
  | nil => intro s h; exact h
  | cons i l ih => intro s h; exact ih (Reachable.pass _ h)

theorem rampTop_reachable : Reachable rampTop := Reachable.passes _ (Reachable.init 0)

set_option maxRecDepth 100000 in
/-- C9: after start-up and 53 measurements without a pulse the machine is in
Ramping with PWM level 255.  A measurement of 11 pulses (220 rpm, more than 200)
then ends calibration: the Status bit is cleared, the PWM level is 0 and the
machine is Idle, but the internal floor and register 2 are set to 4, the 8-bit
wrap of 255 + 5, not to 255 + 5. -/
theorem ramp_success_floor_wraps :
    Ramping rampTop ∧ rampTop.pwmLevel = 255 ∧
      Fires (handlePcintTacho^[11] rampTop) 162000 ∧
      (loop (handlePcintTacho^[11] rampTop) 162000).rpm = 220 ∧
      Idle (loop (handlePcintTacho^[11] rampTop) 162000) ∧
      (loop (handlePcintTacho^[11] rampTop) 162000).i2c_regs.r0 = 0 ∧
      (loop (handlePcintTacho^[11] rampTop) 162000).pwmLevel = 0 ∧
      (loop (handlePcintTacho^[11] rampTop) 162000).pwmLevelMin = 4 ∧
      (loop (handlePcintTacho^[11] rampTop) 162000).i2c_regs.r2 = 4 := by
  decide

/-! ## Telemetry -/

theorem calibrationStep_telemetry (s : State) :
    (calibrationStep s).i2c_regs.r3 = s.i2c_regs.r3 ∧
      (calibrationStep s).i2c_regs.r4 = s.i2c_regs.r4 ∧
      (calibrationStep s).i2c_regs.r5 = s.i2c_regs.r5 ∧
      (calibrationStep s).rpm = s.rpm ∧ (calibrationStep s).rps = s.rps := by
  unfold calibrationStep
  dsimp only
  split_ifs <;> simp

theorem and_ff (n : Nat) : n &&& 0xff = n % 256 := Nat.and_pow_two_sub_one_eq_mod n 8

theorem rpmOf_eq (c : Nat) : rpmOf c = c * 60 % 65536 / 3 := by
  have h16 : (2 : Nat) ^ 16 = 65536 := by norm_num
  unfold rpmOf u16 RPS_MULTI
  simp only [h16]
  omega

theorem pulses_rps (n : Nat) : ∀ (s : State), s.rps + n < 65536 →
    handlePcintTacho^[n] s = { s with rps := s.rps + n } := by
  induction n with
  | zero => intro s _; rfl
  | succ n ih =>
    intro s h
    have h1 : (handlePcintTacho s).rps = s.rps + 1 := by
      show u16 (s.rps + 1) = s.rps + 1
      unfold u16
      omega
    have h2 : s.rps + 1 + n = s.rps + (n + 1) := by omega
    rw [Function.iterate_succ_apply, ih (handlePcintTacho s) (by omega), h1, h2]
    rfl

/-- C10: the calibrated state is reachable, and 1093 tacho interrupts later the
counter holds 1093.  The measurement pass then due publishes RPM 14, 14 and 0 in
registers 4 and 5: the 16-bit product `1093 * 60` has wrapped to 44 before the
division by 3.  The exact `1093 * 60 / 3 = 21860` fits the 16-bit field and has
the low and high byte 100 and 85. -/
theorem telemetry_exact_product_fails :
    Fires calibratedState 12000 ∧
      (tick calibratedState 1093 12000).i2c_regs.r4 = 14 ∧
      (tick calibratedState 1093 12000).i2c_regs.r5 = 0 ∧
      1093 * 60 / 3 % 2 ^ 16 % 256 = 100 ∧ 1093 * 60 / 3 % 2 ^ 16 / 256 = 85 ∧
      ¬ ((tick calibratedState 1093 12000).i2c_regs.r4 = 1093 * 60 / 3 % 2 ^ 16 % 256 ∧
          (tick calibratedState 1093 12000).i2c_regs.r5 = 1093 * 60 / 3 % 2 ^ 16 / 256) ∧
      Reachable (handlePcintTacho^[1093] calibratedState) ∧
      loop (handlePcintTacho^[1093] calibratedState) 12000 = tick calibratedState 1093 12000 ∧
      (tick calibratedState 1093 12000).rpm = 14 ∧
      1093 * 60 % 2 ^ 16 = 44 ∧ 1093 * 60 / 3 = 21860 ∧ 21860 < 2 ^ 16 := by
  have hp : handlePcintTacho^[1093] calibratedState = { calibratedState with rps := 1093 } :=
    pulses_rps 1093 calibratedState (by decide)
  refine ⟨by decide, by decide, by decide, by decide, by decide, by decide,
    Reachable.pulses 1093 calibratedState_reachable, ?_, by decide, by decide, by decide,
    by decide⟩
  rw [hp]
  rfl

/-- What a measurement tick computes from a 16-bit tachometer count `c`: register
3 = `(c / 3) & 0xFF`, registers 4 and 5 = the low and high 8 bits of the variable
`rpm`, and the tachometer counter back at 0.  The variable `rpm` is
`((c * 60) mod 2^16) / 3`; for `c ≤ 1092` the 16-bit product does not wrap and
that is the exact `c * 60 / 3`. -/
theorem telemetry_publication (s : State) (c millis : Nat) (hc : c < 65536)
    (hf : Fires s millis) :
    (tick s c millis).i2c_regs.r3 = (c / 3) &&& 0xFF ∧
      (tick s c millis).rpm = c * 60 % 2 ^ 16 / 3 ∧
      (tick s c millis).i2c_regs.r4 = (tick s c millis).rpm % 256 ∧
      (tick s c millis).i2c_regs.r5 = (tick s c millis).rpm / 256 ∧
      (tick s c millis).rps = 0 ∧
      (c ≤ 1092 → (tick s c millis).rpm = c * 60 / 3) := by
  obtain ⟨h3, h4, h5, hrpm, hrps⟩ := calibrationStep_telemetry
    { s with
      rps := 0, rpm := rpmOf c, now := u32 millis,
      timeNextRpmCalc := u32 (u32 millis + 1000 * RPS_MULTI),
      i2c_regs := { s.i2c_regs with
        r3 := u8 ((c / RPS_MULTI) &&& 0xff), r4 := u8 (rpmOf c &&& 0xff),
        r5 := u8 ((rpmOf c >>> 8) &&& 0xff) },
      pinLed := (serviceBlink { s with rps := c }).pinLed, blinkLed := false }
  rw [← tick_fires s c millis hf] at h3 h4 h5 hrpm hrps
  dsimp only at h3 h4 h5 hrpm hrps
  have hq : rpmOf c = c * 60 % 65536 / 3 := rpmOf_eq c
  rw [h3, h4, h5, hrpm, hrps]
  have h8 : (2 : Nat) ^ 8 = 256 := by norm_num
  have h16 : (2 : Nat) ^ 16 = 65536 := by norm_num
  simp only [and_ff, Nat.shiftRight_eq_div_pow, u8, RPS_MULTI, hq, h8, h16]
  refine ⟨?_, ?_, ?_, ?_, ?_, ?_⟩
  · omega
  · trivial
  · omega
  · omega
  · trivial
  · intro h; omega

/-- An instance of the measurement: 11 pulses on the calibrated state, due at
12000 ms. -/
theorem telemetry_publication_example :
    (tick calibratedState 11 12000).i2c_regs.r3 = (11 / 3) &&& 0xFF ∧
      (tick calibratedState 11 12000).rpm = 11 * 60 % 2 ^ 16 / 3 ∧
      (tick calibratedState 11 12000).i2c_regs.r4 = (tick calibratedState 11 12000).rpm % 256 ∧
      (tick calibratedState 11 12000).i2c_regs.r5 = (tick calibratedState 11 12000).rpm / 256 ∧
      (tick calibratedState 11 12000).rps = 0 ∧
      (11 ≤ 1092 → (tick calibratedState 11 12000).rpm = 11 * 60 / 3) :=
  telemetry_publication calibratedState 11 12000 (by decide) (by decide)

/-! ## Rollover-safe timing -/

theorem checkTime_iff (a b : Nat) :
    checkTime a b = true ↔ (a % 4294967296 + (4294967296 - b % 4294967296)) % 4294967296 < 2147483648 := by
  have h32 : (2 : Nat) ^ 32 = 4294967296 := by norm_num
  have h31 : (2 : Nat) ^ 31 = 2147483648 := by norm_num
  have h32i : (2 : Int) ^ 32 = 4294967296 := by norm_num
  unfold checkTime toLong u32
  simp only [h32, h31, h32i, decide_eq_true_eq]
  split_ifs <;> omega

theorem calibrationStep_time (s : State) :
    (calibrationStep s).timeNextRpmCalc = s.timeNextRpmCalc ∧ (calibrationStep s).now = s.now := by
  unfold calibrationStep
  dsimp only
  split_ifs <;> simp

theorem tick_time (s : State) (c millis : Nat) (hf : Fires s millis) :
    (tick s c millis).timeNextRpmCalc = u32 (u32 millis + 3000) ∧
      (tick s c millis).now = u32 millis := by
  rw [tick_fires s c millis hf]
  obtain ⟨h1, h2⟩ := calibrationStep_time
    { s with
      rps := 0, rpm := rpmOf c, now := u32 millis,
      timeNextRpmCalc := u32 (u32 millis + 1000 * RPS_MULTI),
      i2c_regs := { s.i2c_regs with
        r3 := u8 ((c / RPS_MULTI) &&& 0xff), r4 := u8 (rpmOf c &&& 0xff),
        r5 := u8 ((rpmOf c >>> 8) &&& 0xff) },
      pinLed := (serviceBlink { s with rps := c }).pinLed, blinkLed := false }
  exact ⟨h1, h2⟩

/-- C11: for time values `a` and `b`, which the comparison takes modulo `2^32`,
so in particular for all 32-bit values, `checkTime(a, b)` is true exactly when
`(a - b) mod 2^32 < 2^31`; so for a deadline `d` and an elapsed time
`e < 2^31` the check of `(d + e) mod 2^32` against `d` holds also when `d + e`
wraps, as for the deadline `2^32 - 2` and the clock value 1.  A tick at clock
value `millis` sets the deadline to `millis + 3000` (mod `2^32`); the check is
then false at the same clock value and at every clock value less than 3000 ms
later, and true again 3000 ms later: the event fires once per period. -/
theorem checkTime_rollover_safe (a b d e : Nat) (he : e < 2 ^ 31) (s : State)
    (c millis : Nat) (hf : Fires s millis) :
    (checkTime a b = true ↔ ((a : Int) - (b : Int)) % 2 ^ 32 < 2 ^ 31) ∧
      checkTime ((d + e) % 2 ^ 32) d = true ∧
      checkTime 1 (2 ^ 32 - 2) = true ∧
      (tick s c millis).timeNextRpmCalc = (u32 millis + 3000) % 2 ^ 32 ∧
      ¬ Fires (tick s c millis) millis ∧
      (∀ k, k < 3000 → ¬ Fires (tick s c millis) (u32 millis + k)) ∧
      Fires (tick s c millis) (u32 millis + 3000) := by
  have h32 : (2 : Nat) ^ 32 = 4294967296 := by norm_num
  have h31 : (2 : Nat) ^ 31 = 2147483648 := by norm_num
  have h32i : (2 : Int) ^ 32 = 4294967296 := by norm_num
  have h31i : (2 : Int) ^ 31 = 2147483648 := by norm_num
  obtain ⟨ht, _⟩ := tick_time s c millis hf
  simp only [h31] at he
  refine ⟨?_, ?_, by decide, ?_, ?_, ?_, ?_⟩
  · rw [checkTime_iff, h32i, h31i]
    omega
  · rw [checkTime_iff, h32]
    omega
  · rw [ht]
    rfl
  · unfold Fires
    rw [ht, Bool.not_eq_true, ← Bool.not_eq_true, checkTime_iff]
    unfold u32
    simp only [h32]
    omega
  · intro k hk
    unfold Fires
    rw [ht, Bool.not_eq_true, ← Bool.not_eq_true, checkTime_iff]
    unfold u32
    simp only [h32]
    omega
  · unfold Fires
    rw [ht, checkTime_iff]
    unfold u32
    simp only [h32]
    omega

/-- Witness of C11: the clock value 1 against the deadline `2^32 - 2`, and the
first measurement tick after `setup()`, due at 3000 ms. -/
theorem checkTime_rollover_safe_witness :
    (checkTime 1 (2 ^ 32 - 2) = true ↔
        (((1 : Nat) : Int) - ((2 ^ 32 - 2 : Nat) : Int)) % 2 ^ 32 < 2 ^ 31) ∧
      checkTime ((2 ^ 32 - 2 + 3) % 2 ^ 32) (2 ^ 32 - 2) = true ∧
      checkTime 1 (2 ^ 32 - 2) = true ∧
      (tick (setup 0) 0 3000).timeNextRpmCalc = (u32 3000 + 3000) % 2 ^ 32 ∧
      ¬ Fires (tick (setup 0) 0 3000) 3000 ∧
      (∀ k, k < 3000 → ¬ Fires (tick (setup 0) 0 3000) (u32 3000 + k)) ∧
      Fires (tick (setup 0) 0 3000) (u32 3000 + 3000) :=
  checkTime_rollover_safe 1 (2 ^ 32 - 2) (2 ^ 32 - 2) 3 (by decide) (setup 0) 0 3000
    (by decide)

/-! ## Termination of calibration -/

theorem setup_stopRequested (millis : Nat) : StopRequested (setup millis) := by
  simp [setup, StopRequested]

theorem tick_idle (s : State) (c millis : Nat) (hf : Fires s millis) (h : Idle s) :
    Idle (tick s c millis) ∧ (tick s c millis).pwmLevel = s.pwmLevel ∧
      (tick s c millis).i2c_regs.r0 = s.i2c_regs.r0 := by
  obtain ⟨h1, h2⟩ := h
  rw [tick_fires s c millis hf]
  simp [calibrationStep, Idle, h1, h2]

theorem runTicks_ramping (s : State) (sched : Nat → Nat × Nat) (hs : StopRequested s)
    (hfire : ∀ n, Fires (runTicks s sched n) (sched n).2) :
    ∀ n, (∀ j, 2 ≤ j → j < n + 2 → rpmOf (sched j).1 ≤ 200) →
      Ramping (runTicks s sched (n + 2)) := by
  intro n
  induction n with
  | zero =>
    intro _
    have h1 := (tick_stopRequested s (sched 0).1 (sched 0).2 (hfire 0) hs).1
    exact (tick_stopping _ (sched 1).1 (sched 1).2 (hfire 1) h1).1
  | succ n ih =>
    intro hlow
    have hr := ih (fun j h2 hj => hlow j h2 (by omega))
    exact (tick_ramping_low _ (sched (n + 2)).1 (sched (n + 2)).2 (hfire (n + 2)) hr
      (hlow (n + 2) (by omega) (by omega))).1

theorem runTicks_not_idle (s : State) (sched : Nat → Nat × Nat) (hs : StopRequested s)
    (hfire : ∀ n, Fires (runTicks s sched n) (sched n).2)
    (hlow : ∀ j, 2 ≤ j → rpmOf (sched j).1 ≤ 200) : ∀ n, ¬ Idle (runTicks s sched n) := by
  intro n hid
  match n with
  | 0 =>
    have h1 : s.pwmLevelMinCalStart = true := hs.1
    have h2 : s.pwmLevelMinCalStart = false := hid.2
    rw [h1] at h2
    exact Bool.noConfusion h2
  | 1 =>
    have h1 := (tick_stopRequested s (sched 0).1 (sched 0).2 (hfire 0) hs).1.1
    have h2 : (tick s (sched 0).1 (sched 0).2).pwmLevelMinCalStart = false := hid.2
    rw [h1] at h2
    exact Bool.noConfusion h2
  | n + 2 =>
    have h1 := (runTicks_ramping s sched hs hfire n (fun j h2 _ => hlow j h2)).1
    have h2 : (runTicks s sched (n + 2)).pwmLevelMinCal = false := hid.1
    rw [h1] at h2
    exact Bool.noConfusion h2

theorem runTicks_idle_step (s : State) (sched : Nat → Nat × Nat)
    (hfire : ∀ n, Fires (runTicks s sched n) (sched n).2) (i : Nat)
    (hid : Idle (runTicks s sched i)) : Idle (runTicks s sched (i + 1)) :=
  (tick_idle _ (sched i).1 (sched i).2 (hfire i) hid).1

theorem checkTime_self (a : Nat) : checkTime a a = true := by
  rw [checkTime_iff]
  omega

theorem periodic_deadline (counts : Nat → Nat) : ∀ n,
    (runTicks (setup 0) (periodic counts) n).timeNextRpmCalc = u32 (3000 * (n + 1)) ∧
      Fires (runTicks (setup 0) (periodic counts) n) (periodic counts n).2 := by
  have hfire : ∀ (s : State) (m : Nat), s.timeNextRpmCalc = u32 m → Fires s m := by
    intro s m h
    unfold Fires
    rw [h]
    exact checkTime_self _
  intro n
  induction n with
  | zero =>
    have h0 : (setup 0).timeNextRpmCalc = u32 (3000 * (0 + 1)) := by decide
    exact ⟨h0, hfire _ _ h0⟩
  | succ n ih =>
    obtain ⟨_, hf⟩ := ih
    have ht := (tick_time _ (counts n) (3000 * (n + 1)) hf).1
    have hd : (runTicks (setup 0) (periodic counts) (n + 1)).timeNextRpmCalc =
        u32 (3000 * (n + 1 + 1)) := by
      show (tick _ (counts n) (3000 * (n + 1))).timeNextRpmCalc = _
      rw [ht]
      unfold u32
      omega
    exact ⟨hd, hfire _ _ hd⟩

set_option maxRecDepth 100000 in
/-- C12 (counterexample): from the state after `setup()`, with a measurement
every 3000 ms that never counts a pulse, every measurement fires and the machine
is Idle after none of them; the PWM level reaches 255 after 53 measurements and
is 4 after the next one, the machine still in Ramping. -/
theorem calibration_never_ends_without_pulses :
    (∀ n, Fires (runTicks (setup 0) (periodic fun _ => 0) n) (periodic (fun _ => 0) n).2) ∧
      (∀ n, ¬ Idle (runTicks (setup 0) (periodic fun _ => 0) n)) ∧
      (runTicks (setup 0) (periodic fun _ => 0) 53).pwmLevel = 255 ∧
      (runTicks (setup 0) (periodic fun _ => 0) 54).pwmLevel = 4 ∧
      Ramping (runTicks (setup 0) (periodic fun _ => 0) 54) := by
  have hfire := fun n => (periodic_deadline (fun _ => 0) n).2
  refine ⟨hfire, ?_, by decide, by decide, by decide⟩
  have hzero : rpmOf 0 ≤ 200 := by decide
  exact runTicks_not_idle (setup 0) _ (setup_stopRequested 0) hfire (fun _ _ => hzero)

/-- C12 (amended): starting from the state after `setup()`, for every unending
sequence of measurement ticks, the machine is Idle after some tick exactly when
some tick from the third on measures more than 200 rpm, and it becomes Idle at
the first such tick, having been in Ramping before it.  There is no exit by the
PWM level reaching its maximum. -/
theorem calibration_ends_iff (millis0 : Nat) (sched : Nat → Nat × Nat)
    (hfire : ∀ n, Fires (runTicks (setup millis0) sched n) (sched n).2) :
    ((∃ n, Idle (runTicks (setup millis0) sched n)) ↔
        ∃ i, 2 ≤ i ∧ 200 < rpmOf (sched i).1) ∧
      (∀ i, 2 ≤ i → (∀ j, 2 ≤ j → j < i → rpmOf (sched j).1 ≤ 200) →
        200 < rpmOf (sched i).1 →
        Ramping (runTicks (setup millis0) sched i) ∧
          Idle (runTicks (setup millis0) sched (i + 1))) := by
  have hs := setup_stopRequested millis0
  have first : ∀ i, 2 ≤ i → (∀ j, 2 ≤ j → j < i → rpmOf (sched j).1 ≤ 200) →
      200 < rpmOf (sched i).1 →
      Ramping (runTicks (setup millis0) sched i) ∧
        Idle (runTicks (setup millis0) sched (i + 1)) := by
    intro i hi hlow hhigh
    obtain ⟨n, rfl⟩ : ∃ n, i = n + 2 := ⟨i - 2, by omega⟩
    have hr := runTicks_ramping (setup millis0) sched hs hfire n hlow
    exact ⟨hr, (tick_ramping_high _ (sched (n + 2)).1 (sched (n + 2)).2 (hfire (n + 2)) hr
      hhigh).1⟩
  refine ⟨⟨?_, ?_⟩, first⟩
  · rintro ⟨n, hid⟩
    by_contra hno
    push_neg at hno
    exact runTicks_not_idle (setup millis0) sched hs hfire hno n hid
  · intro hex
    have hspec := Nat.find_spec hex
    have hmin : ∀ j, 2 ≤ j → j < Nat.find hex → rpmOf (sched j).1 ≤ 200 := by
      intro j h2 hj
      have := Nat.find_min hex hj
      by_contra hc
      exact this ⟨h2, by omega⟩
    exact ⟨Nat.find hex + 1, (first _ hspec.1 hmin hspec.2).2⟩

/-- Witness of C12 (amended): measurements every 3000 ms after `setup()` at
clock value 0, the third counting 11 pulses (220 rpm) and the others none. -/
theorem calibration_ends_iff_witness :
    ((∃ n, Idle (runTicks (setup 0) (periodic fun n => if n = 2 then 11 else 0) n)) ↔
        ∃ i, 2 ≤ i ∧ 200 < rpmOf ((periodic fun n => if n = 2 then 11 else 0) i).1) ∧
      (∀ i, 2 ≤ i →
        (∀ j, 2 ≤ j → j < i →
          rpmOf ((periodic fun n => if n = 2 then 11 else 0) j).1 ≤ 200) →
        200 < rpmOf ((periodic fun n => if n = 2 then 11 else 0) i).1 →
        Ramping (runTicks (setup 0) (periodic fun n => if n = 2 then 11 else 0) i) ∧
          Idle (runTicks (setup 0) (periodic fun n => if n = 2 then 11 else 0) (i + 1))) :=
  calibration_ends_iff 0 (periodic fun n => if n = 2 then 11 else 0)
    (fun n => (periodic_deadline (fun n => if n = 2 then 11 else 0) n).2)

/-! ## Writes to the telemetry and Status registers -/

theorem receiveData_discard (s : State) (b : Nat) (hp : 3 ≤ s.reg_position) :
    receiveData s b = s := by
  have h0 : s.reg_position ≠ 0 := by omega
  have h1 : s.reg_position ≠ 1 := by omega
  have h2 : s.reg_position ≠ 2 := by omega
  simp [receiveData, h0, h1, h2]

/-- C13 (counterexample): the calibrated state is Idle and holds 3 in register
3; after the write burst `[0x03, 0x55]` register 3 still holds 3, not `0x55`. -/
theorem telemetry_write_discarded :
    Idle calibratedState ∧ calibratedState.i2c_regs.r3 = 3 ∧
      i2cReceiveEvent calibratedState 2 [0x03, 0x55] =
        some { calibratedState with blinkLed := true, reg_position := 4 } ∧
      ({ calibratedState with blinkLed := true, reg_position := 4 } : State).i2c_regs.r3 ≠
        0x55 := by
  decide

/-- C13 (amended): for every state, Idle or not, every register index `r` in
{3, 4, 5} and every byte `b`, the write burst `[r, b]` consumes the byte and
discards it: every Register File cell, cell `r` included, holds what it held
before, and so do the flags, the floor and the PWM level; only the pointer, now
`(r + 1) mod 6`, and the blink request change. -/
theorem telemetry_write_keeps_registers (s : State) (r b : Nat)
    (hr : r = 3 ∨ r = 4 ∨ r = 5) :
    i2cReceiveEvent s 2 [r, b] =
      some { s with blinkLed := true, reg_position := (r + 1) % 6 } := by
  rw [i2cReceiveEvent_pair]
  rcases hr with h | h | h <;> subst h <;>
    rw [receiveData_discard _ b (by simp [u8])] <;> rfl

/-- Witness of C13 (amended): the byte `0x55` written to register 4 of the
calibrated state. -/
theorem telemetry_write_keeps_registers_witness :
    i2cReceiveEvent calibratedState 2 [4, 0x55] =
      some { calibratedState with blinkLed := true, reg_position := (4 + 1) % 6 } :=
  telemetry_write_keeps_registers calibratedState 4 0x55 (Or.inr (Or.inl rfl))

theorem bitRead0_mod_two (b : Nat) : bitRead0 (b % 2) = true ↔ b % 2 = 1 := by
  rcases Nat.mod_two_eq_zero_or_one b with h | h <;> rw [h] <;> decide

/-- C14: in an Idle state, for every byte `b`, the write burst `[0x00, b]` stores
`b & 1` in the Status register, sets the calibration-start flag exactly when bit
0 of `b` is set, leaves the calibration-active flag clear, and leaves
SpeedCommand, MinPwmFloor, the internal floor and the PWM level as they were. -/
theorem status_write_masks_and_arms (s : State) (b : Nat) (hidle : Idle s) :
    ∃ s1, i2cReceiveEvent s 2 [0x00, b] = some s1 ∧ s1.i2c_regs.r0 = b &&& 1 ∧
      (s1.pwmLevelMinCalStart = true ↔ b &&& 1 = 1) ∧ s1.pwmLevelMinCal = false ∧
      s1.i2c_regs.r1 = s.i2c_regs.r1 ∧ s1.i2c_regs.r2 = s.i2c_regs.r2 ∧
      s1.pwmLevelMin = s.pwmLevelMin ∧ s1.pwmLevel = s.pwmLevel ∧ s1.pinPwm = s.pinPwm := by
  have hi : Idle { s with blinkLed := true, reg_position := u8 0 } := hidle
  have hmask : u8 (b &&& 1) = b % 2 := by
    rw [Nat.and_one_is_mod]
    unfold u8
    omega
  refine ⟨_, i2cReceiveEvent_pair s 0 b, ?_⟩
  rw [receiveData_status _ b hi rfl, hmask, Nat.and_one_is_mod]
  exact ⟨rfl, bitRead0_mod_two b, hidle.1, rfl, rfl, rfl, rfl, rfl⟩

/-- Witness of C14: the byte `0xFF` written to the Status register of the
calibrated state. -/
theorem status_write_masks_and_arms_witness :
    ∃ s1, i2cReceiveEvent calibratedState 2 [0x00, 0xFF] = some s1 ∧
      s1.i2c_regs.r0 = 0xFF &&& 1 ∧
      (s1.pwmLevelMinCalStart = true ↔ 0xFF &&& 1 = 1) ∧ s1.pwmLevelMinCal = false ∧
      s1.i2c_regs.r1 = calibratedState.i2c_regs.r1 ∧
      s1.i2c_regs.r2 = calibratedState.i2c_regs.r2 ∧
      s1.pwmLevelMin = calibratedState.pwmLevelMin ∧
      s1.pwmLevel = calibratedState.pwmLevel ∧ s1.pinPwm = calibratedState.pinPwm :=
  status_write_masks_and_arms calibratedState 0xFF (by decide)

/-! ## Calibration convergence -/

theorem ticks_append (l1 l2 : List (Nat × Nat)) : ∀ (s : State),
    ticks s (l1 ++ l2) = ticks (ticks s l1) l2 := by
  induction l1 with
  | nil => intro s; rfl
  | cons cm l1 ih =>
    intro s
    obtain ⟨c, m⟩ := cm
    exact ih (tick s c m)

theorem AllFire_append (l1 l2 : List (Nat × Nat)) : ∀ (s : State),
    AllFire s (l1 ++ l2) → AllFire s l1 ∧ AllFire (ticks s l1) l2 := by
  induction l1 with
  | nil => intro s h; exact ⟨trivial, h⟩
  | cons cm l1 ih =>
    intro s h
    obtain ⟨c, m⟩ := cm
    obtain ⟨h1, h2⟩ := h
    obtain ⟨h3, h4⟩ := ih (tick s c m) h2
    exact ⟨⟨h1, h3⟩, h4⟩

theorem ticks_ramp_level (ramp : List (Nat × Nat)) : ∀ (s : State), Ramping s →
    s.pwmLevel + 5 * ramp.length ≤ 255 → AllFire s ramp →
    (∀ cm ∈ ramp, rpmOf cm.1 ≤ 200) →
    Ramping (ticks s ramp) ∧ (ticks s ramp).pwmLevel = s.pwmLevel + 5 * ramp.length := by
  induction ramp with
  | nil => intro s h _ _ _; exact ⟨h, rfl⟩
  | cons cm ramp ih =>
    intro s h hle hf hlow
    obtain ⟨c, m⟩ := cm
    obtain ⟨hf1, hf2⟩ := hf
    simp only [List.length_cons] at hle
    have hc : rpmOf c ≤ 200 := hlow (c, m) (List.mem_cons_self _ _)
    obtain ⟨hr, hp, _, _⟩ := tick_ramping_low s c m hf1 h hc
    have hp1 : (tick s c m).pwmLevel = s.pwmLevel + 5 := by
      rw [hp]
      exact u8_of_lt (by omega)
    obtain ⟨hr2, hp2⟩ := ih (tick s c m) hr (by omega) hf2
      (fun cm hcm => hlow cm (List.mem_cons_of_mem _ hcm))
    refine ⟨hr2, ?_⟩
    show (ticks (tick s c m) ramp).pwmLevel = _
    rw [hp2, hp1, List.length_cons]
    omega

set_option maxRecDepth 100000 in
/-- C15: for `k` in 0..50, from a StopRequested state, let the two ticks that
arm and stop be followed by `k` Ramping ticks that each measure at most 200 rpm
and then by a tick that measures more.  Before that last tick the machine is in
Ramping at PWM level `5 * k`; the tick, number `k + 3`, leaves it Idle with the
internal floor and register 2 at `5 * k + 5`.  For the simulated fan of the spec
in closed loop from the state after `setup()` (floor 0, PWM 0), all 28 ticks
fire, the machine is Idle after none of the first 27, the 28th is measured at
the winning level 125 and leaves it Idle with floor 130. -/
theorem calibration_convergence (k : Nat) (hk : k ≤ 50) (s : State) (hs : StopRequested s)
    (stop1 stop2 win : Nat × Nat) (ramp : List (Nat × Nat)) (hlen : ramp.length = k)
    (hfire : AllFire s (stop1 :: stop2 :: (ramp ++ [win])))
    (hlow : ∀ cm ∈ ramp, rpmOf cm.1 ≤ 200) (hhigh : 200 < rpmOf win.1) :
    (Ramping (ticks s (stop1 :: stop2 :: ramp)) ∧
        (ticks s (stop1 :: stop2 :: ramp)).pwmLevel = 5 * k ∧
        (stop1 :: stop2 :: (ramp ++ [win])).length = k + 3 ∧
        Idle (ticks s (stop1 :: stop2 :: (ramp ++ [win]))) ∧
        (ticks s (stop1 :: stop2 :: (ramp ++ [win]))).pwmLevelMin = 5 * k + 5 ∧
        (ticks s (stop1 :: stop2 :: (ramp ++ [win]))).i2c_regs.r2 = 5 * k + 5) ∧
      ((∀ n, n < 28 → Fires (simFanRun (setup 0) n) (3000 * (n + 1))) ∧
        (∀ n, n < 28 → ¬ Idle (simFanRun (setup 0) n)) ∧
        (simFanRun (setup 0) 27).pinPwm = 125 ∧
        Idle (simFanRun (setup 0) 28) ∧
        (simFanRun (setup 0) 28).pwmLevelMin = 125 + 5 ∧
        (simFanRun (setup 0) 28).i2c_regs.r2 = 125 + 5) := by
  refine ⟨?_, by decide⟩
  obtain ⟨c1, m1⟩ := stop1
  obtain ⟨c2, m2⟩ := stop2
  obtain ⟨c, m⟩ := win
  obtain ⟨hf1, hf2, hf3⟩ := hfire
  obtain ⟨hfr, hfw, _⟩ := AllFire_append ramp [(c, m)] _ hf3
  obtain ⟨hst, hp1, _⟩ := tick_stopRequested s c1 m1 hf1 hs
  obtain ⟨hrm, hp2, _⟩ := tick_stopping (tick s c1 m1) c2 m2 hf2 hst
  have hp0 : (tick (tick s c1 m1) c2 m2).pwmLevel = 0 := hp2.trans hp1
  obtain ⟨hrr, hlev⟩ := ticks_ramp_level ramp (tick (tick s c1 m1) c2 m2) hrm
    (by rw [hp0, hlen]; omega) hfr hlow
  rw [hp0, hlen, Nat.zero_add] at hlev
  obtain ⟨hid, _, _, hmin, hr2⟩ := tick_ramping_high _ c m hfw hrr hhigh
  rw [hlev, u8_of_lt (by omega)] at hmin hr2
  have hrun : ticks s ((c1, m1) :: (c2, m2) :: (ramp ++ [(c, m)])) =
      tick (ticks (tick (tick s c1 m1) c2 m2) ramp) c m := by
    show ticks (tick (tick s c1 m1) c2 m2) (ramp ++ [(c, m)]) = _
    rw [ticks_append]
    rfl
  rw [hrun]
  refine ⟨hrr, hlev, ?_, hid, hmin, hr2⟩
  simp [hlen]

/-- Witness of C15: `k = 1` from the state after `setup()`: two ticks without
pulses, one Ramping tick without pulses, then a tick that counts 11 pulses. -/
theorem calibration_convergence_witness :
    Idle (ticks (setup 0) ((0, 3000) :: (0, 6000) :: ([(0, 9000)] ++ [(11, 12000)]))) ∧
      (ticks (setup 0) ((0, 3000) :: (0, 6000) :: ([(0, 9000)] ++ [(11, 12000)]))).pwmLevelMin =
        5 * 1 + 5 ∧
      (ticks (setup 0) ((0, 3000) :: (0, 6000) :: [(0, 9000)])).pwmLevel = 5 * 1 :=
  have h := (calibration_convergence 1 (by decide) (setup 0) (by decide) (0, 3000) (0, 6000)
    (11, 12000) [(0, 9000)] rfl ⟨by decide, by decide, by decide, by decide, trivial⟩
    (by decide) (by decide)).1
  ⟨h.2.2.2.1, h.2.2.2.2.1, h.2.1⟩

/-! ## Ramp step -/

set_option maxRecDepth 100000 in
/-- C16: after start-up and 53 measurements without a pulse the machine is in
Ramping with PWM level 255.  The next measurement, again without a pulse (0 rpm,
at most 200), sets the PWM level and the PWM pin to 4, the 8-bit wrap of
255 + 5, not to `min (255 + 5) 255 = 255`; the Status bit stays set, the floor
is unchanged and the machine stays in Ramping. -/
theorem ramp_step_wraps :
    Ramping rampTop ∧ rampTop.pwmLevel = 255 ∧ Fires rampTop 162000 ∧
      (loop rampTop 162000).rpm = 0 ∧
      (loop rampTop 162000).pwmLevel = 4 ∧ (loop rampTop 162000).pinPwm = 4 ∧
      min (rampTop.pwmLevel + 5) 255 = 255 ∧
      Ramping (loop rampTop 162000) ∧ (loop rampTop 162000).i2c_regs.r0 = 1 ∧
      (loop rampTop 162000).pwmLevelMin = rampTop.pwmLevelMin := by
  decide

/-! ## Floor and register agree -/

/-- C17: in every state reachable from the state after `setup()` by write
bursts, read requests, tacho interrupts and passes of `loop()`, register 2
(MinPwmFloor) equals the internal floor `pwmLevelMin` that `setFanSpeed` uses. -/
theorem floor_register_agreement (s : State) (h : Reachable s) :
    s.i2c_regs.r2 = s.pwmLevelMin :=
  h.floorInv.2.2

/-- Witness of C17: the calibrated state, whose floor is 5. -/
theorem floor_register_agreement_witness :
    calibratedState.i2c_regs.r2 = calibratedState.pwmLevelMin :=
  floor_register_agreement calibratedState calibratedState_reachable

/-! ## Pointer re-normalisation -/

theorem advance_reg_position_lt (s : State) : (advance s).reg_position < 6 := by
  simp only [advance, u8, reg_size]
  split_ifs <;> omega

theorem advance_out_of_range (s : State) (h6 : 6 ≤ s.reg_position)
    (h255 : s.reg_position ≤ 255) : advance s = { s with reg_position := 0 } := by
  have h : u8 (s.reg_position + 1) = 0 ∨ u8 (s.reg_position + 1) ≥ reg_size := by
    unfold u8 reg_size
    omega
  unfold advance
  rcases h with h | h
  · simp [h]
  · simp [h]

theorem receiveLoop_pointer (n : Nat) : ∀ (s : State) (rx : List Nat), n ≤ rx.length →
    ∃ s1, receiveLoop n s rx = some s1 ∧ (0 < n → s1.reg_position < 6) := by
  induction n with
  | zero => intro s rx _; exact ⟨s, rfl, fun h => absurd h (Nat.lt_irrefl 0)⟩
  | succ n ih =>
    intro s rx hn
    cases rx with
    | nil => simp at hn
    | cons b rx =>
      have hn1 : n ≤ rx.length := by simpa using hn
      obtain ⟨s1, h1, h2⟩ := ih (advance (receiveData s b)) rx hn1
      refine ⟨s1, by simpa [receiveLoop] using h1, fun _ => ?_⟩
      by_cases h0 : n = 0
      · subst h0
        simp only [receiveLoop, Option.some.injEq] at h1
        rw [← h1]
        exact advance_reg_position_lt _
      · exact h2 (Nat.pos_of_ne_zero h0)

/-- C18: whatever byte the pointer holds before, values of 6 and more included,
it is below 6 after a read request and after a write burst that carries at least
one data byte; a data byte processed while the pointer is 6 or more changes no
register, nor anything else but the pointer, which it resets to 0; a
pointer-only write `[p]` leaves the pointer at `p`, also for `p ≥ 6`. -/
theorem pointer_renormalised (s : State) (hp : s.reg_position ≤ 255) :
    (i2cRequestEvent s).2.reg_position < 6 ∧
      (∀ bytes : List Nat, 2 ≤ bytes.length → bytes.length ≤ 16 →
        ∃ s1, i2cReceiveEvent s bytes.length bytes = some s1 ∧ s1.reg_position < 6) ∧
      (6 ≤ s.reg_position → ∀ b, advance (receiveData s b) = { s with reg_position := 0 }) ∧
      (∀ p, p ≤ 255 →
        i2cReceiveEvent s 1 [p] = some { s with blinkLed := true, reg_position := p }) := by
  refine ⟨advance_reg_position_lt s, ?_, ?_, ?_⟩
  · intro bytes h2 h16
    cases bytes with
    | nil => simp at h2
    | cons p rx =>
      have h16r : rx.length + 1 ≤ 16 := by simpa using h16
      have h0 : rx.length ≠ 0 := by
        simp only [List.length_cons] at h2
        omega
      rw [List.length_cons, i2cReceiveEvent_cons s p rx h16r, if_neg h0]
      obtain ⟨s1, h1, hlt⟩ := receiveLoop_pointer rx.length
        { s with blinkLed := true, reg_position := u8 p } rx (le_refl _)
      exact ⟨s1, h1, hlt (Nat.pos_of_ne_zero h0)⟩
  · intro h6 b
    rw [receiveData_discard s b (by omega)]
    exact advance_out_of_range s h6 hp
  · intro p hp255
    rw [i2cReceiveEvent_single, u8_of_lt (by omega)]

/-- Witness of C18: the state after `setup()` with the pointer at 200. -/
theorem pointer_renormalised_witness :
    (i2cRequestEvent { setup 0 with reg_position := 200 }).2.reg_position < 6 ∧
      (∀ bytes : List Nat, 2 ≤ bytes.length → bytes.length ≤ 16 →
        ∃ s1, i2cReceiveEvent { setup 0 with reg_position := 200 } bytes.length bytes =
          some s1 ∧ s1.reg_position < 6) ∧
      (6 ≤ ({ setup 0 with reg_position := 200 } : State).reg_position →
        ∀ b, advance (receiveData { setup 0 with reg_position := 200 } b) =
          { ({ setup 0 with reg_position := 200 } : State) with reg_position := 0 }) ∧
      (∀ p, p ≤ 255 →
        i2cReceiveEvent { setup 0 with reg_position := 200 } 1 [p] =
          some { ({ setup 0 with reg_position := 200 } : State) with
            blinkLed := true, reg_position := p }) :=
  pointer_renormalised { setup 0 with reg_position := 200 } (by decide)

/-! ## Status register and state machine -/

theorem bitSet0_of_le_one {v : Nat} (h : v ≤ 1) : bitSet0 v = 1 := by
  have hv : v = 0 ∨ v = 1 := by omega
  rcases hv with hv | hv <;> subst hv <;> decide

theorem bitClear0_of_le_one {v : Nat} (h : v ≤ 1) : bitClear0 v = 0 := by
  have hv : v = 0 ∨ v = 1 := by omega
  rcases hv with hv | hv <;> subst hv <;> decide

theorem u8_and_one (b : Nat) : u8 (b &&& 1) = b % 2 := by
  rw [Nat.and_one_is_mod]
  unfold u8
  omega

theorem StatusInv_receiveData {s : State} (b : Nat) (h : StatusInv s) :
    StatusInv (receiveData s b) := by
  obtain ⟨h1, h2, h3⟩ := h
  by_cases hl : s.pwmLevelMinCalStart = true ∨ s.pwmLevelMinCal = true
  · rw [receiveData_locked s b hl]
    exact ⟨h1, h2, h3⟩
  · have hidle : Idle s := by
      unfold Idle
      cases hc : s.pwmLevelMinCal <;> cases hs : s.pwmLevelMinCalStart <;> simp_all
    have hp : s.reg_position = 0 ∨ s.reg_position = 1 ∨ s.reg_position = 2 ∨
        3 ≤ s.reg_position := by omega
    rcases hp with hp | hp | hp | hp
    · rw [receiveData_status s b hidle hp, u8_and_one]
      refine ⟨?_, ?_, ?_⟩
      · show b % 2 ≤ 1
        omega
      · intro hc
        have hc' : s.pwmLevelMinCal = true := hc
        rw [hidle.1] at hc'
        exact Bool.noConfusion hc'
      · intro hi
        have hb : bitRead0 (b % 2) = false := hi.2
        show b % 2 = 0
        rcases Nat.mod_two_eq_zero_or_one b with h0 | h0
        · exact h0
        · rw [h0] at hb
          exact absurd hb (by decide)
    · rw [receiveData_speed s b hidle hp]
      unfold StatusInv Idle at *
      simpa using ⟨h1, h2, fun hc hs => h3 ⟨hc, hs⟩⟩
    · rw [receiveData_floor s b hidle hp]
      unfold StatusInv Idle at *
      simpa using ⟨h1, h2, fun hc hs => h3 ⟨hc, hs⟩⟩
    · rw [receiveData_discard s b hp]
      exact ⟨h1, h2, h3⟩

theorem StatusInv_receiveLoop (n : Nat) : ∀ (s s1 : State) (rx : List Nat),
    StatusInv s → receiveLoop n s rx = some s1 → StatusInv s1 := by
  induction n with
  | zero =>
    intro s s1 rx h hr
    simp only [receiveLoop, Option.some.injEq] at hr
    exact hr ▸ h
  | succ n ih =>
    intro s s1 rx h hr
    cases rx with
    | nil => simp [receiveLoop] at hr
    | cons b rx =>
      simp only [receiveLoop] at hr
      exact ih _ s1 rx (by exact StatusInv_receiveData b h) hr

theorem StatusInv_i2cReceiveEvent {s s1 : State} (howMany : Nat) (rx : List Nat)
    (h : StatusInv s) (hr : i2cReceiveEvent s howMany rx = some s1) : StatusInv s1 := by
  unfold i2cReceiveEvent at hr
  split_ifs at hr with hc
  · simp only [Option.some.injEq] at hr
    exact hr ▸ h
  · cases rx with
    | nil => simp at hr
    | cons p rx =>
      simp only at hr
      split_ifs at hr with h0
      · simp only [Option.some.injEq] at hr
        exact hr ▸ h
      · exact StatusInv_receiveLoop _ _ s1 rx (by exact h) hr

theorem StatusInv_calibrationStep {s : State} (h : StatusInv s) :
    StatusInv (calibrationStep s) := by
  obtain ⟨h1, h2, h3⟩ := h
  have hset := bitSet0_of_le_one h1
  have hclear := bitClear0_of_le_one h1
  unfold calibrationStep StatusInv Idle at *
  dsimp only
  split_ifs <;> simp_all

theorem StatusInv_loop {s : State} (millis : Nat) (h : StatusInv s) :
    StatusInv (loop s millis) := by
  have hb : StatusInv (serviceBlink s) := by
    unfold serviceBlink
    split_ifs
    · exact h
    · exact h
  unfold loop
  dsimp only
  split_ifs
  · unfold measurement
    exact StatusInv_calibrationStep (by exact hb)
  · exact hb

theorem StatusInv_setup (millis : Nat) : StatusInv (setup millis) := by
  simp [setup, StatusInv, Idle]

theorem Reachable.statusInv {s : State} (h : Reachable s) : StatusInv s := by
  induction h with
  | init millis => exact StatusInv_setup millis
  | write rx _ hr ih => exact StatusInv_i2cReceiveEvent _ rx ih hr
  | read _ ih => exact ih
  | pulse _ ih => exact ih
  | pass millis _ ih => exact StatusInv_loop millis ih

/-- C19: in every state reachable from the state after `setup()` by write bursts,
read requests, tacho interrupts and passes of `loop()`, the Status register
holds 0 or 1, it holds 1 whenever calibration is active (`pwmLevelMinCal` set:
Stopping or Ramping), and it holds 0 whenever the machine is Idle. -/
theorem status_state_machine_invariant (s : State) (h : Reachable s) :
    (s.i2c_regs.r0 = 0 ∨ s.i2c_regs.r0 = 1) ∧
      (s.pwmLevelMinCal = true → s.i2c_regs.r0 = 1) ∧
      (Stopping s ∨ Ramping s → s.i2c_regs.r0 = 1) ∧
      (Idle s → s.i2c_regs.r0 = 0) := by
  obtain ⟨h1, h2, h3⟩ := h.statusInv
  refine ⟨by omega, h2, ?_, h3⟩
  rintro (hs | hr)
  · exact h2 hs.2
  · exact h2 hr.1

/-- Witness of C19: the calibrated state after the master has requested a new
calibration, which is reachable. -/
theorem status_state_machine_invariant_witness :
    (requestedState.i2c_regs.r0 = 0 ∨ requestedState.i2c_regs.r0 = 1) ∧
      (requestedState.pwmLevelMinCal = true → requestedState.i2c_regs.r0 = 1) ∧
      (Stopping requestedState ∨ Ramping requestedState → requestedState.i2c_regs.r0 = 1) ∧
      (Idle requestedState → requestedState.i2c_regs.r0 = 0) :=
  status_state_machine_invariant requestedState
    (Reachable.write [0x00, 0x01] calibratedState_reachable (by decide))

/-! ## Calibration and the speed command -/

theorem calibrationStep_r1 (s : State) :
    (calibrationStep s).i2c_regs.r1 = s.i2c_regs.r1 := by
  unfold calibrationStep
  dsimp only
  split_ifs <;> simp

theorem loop_r1 (s : State) (millis : Nat) :
    (loop s millis).i2c_regs.r1 = s.i2c_regs.r1 := by
  have hb : (serviceBlink s).i2c_regs.r1 = s.i2c_regs.r1 := by
    rw [serviceBlink_frame s]
  unfold loop
  dsimp only
  split_ifs
  · unfold measurement
    dsimp only
    rw [calibrationStep_r1]
    exact hb
  · exact hb

theorem ticks_r1 (l : List (Nat × Nat)) : ∀ (s : State),
    (ticks s l).i2c_regs.r1 = s.i2c_regs.r1 := by
  induction l with
  | nil => intro s; rfl
  | cons cm l ih =>
    intro s
    obtain ⟨c, m⟩ := cm
    show (ticks (tick s c m) l).i2c_regs.r1 = _
    rw [ih (tick s c m)]
    exact loop_r1 _ m

theorem loop_idle (s : State) (millis : Nat) (h : Idle s) :
    Idle (loop s millis) ∧ (loop s millis).pwmLevel = s.pwmLevel := by
  have hb : Idle (serviceBlink s) ∧ (serviceBlink s).pwmLevel = s.pwmLevel := by
    rw [serviceBlink_frame s]
    exact ⟨h, rfl⟩
  obtain ⟨⟨h1, h2⟩, h3⟩ := hb
  unfold loop
  dsimp only
  split_ifs
  · unfold measurement
    dsimp only
    simp [calibrationStep, Idle, h1, h2, h3]
  · exact ⟨⟨h1, h2⟩, h3⟩

theorem Undisturbed.idle {s t : State} (hu : Undisturbed s t) (h : Idle s) :
    Idle t ∧ t.pwmLevel = s.pwmLevel ∧ t.i2c_regs.r1 = s.i2c_regs.r1 := by
  induction hu with
  | start => exact ⟨h, rfl, rfl⟩
  | pass millis _ ih =>
    obtain ⟨hi, hp, hr⟩ := ih
    obtain ⟨hi2, hp2⟩ := loop_idle _ millis hi
    exact ⟨hi2, hp2.trans hp, (loop_r1 _ millis).trans hr⟩
  | pulse _ ih => exact ih
  | read _ ih => exact ih
  | pointer p _ ih => exact ih
  | data b _ hd ih =>
    rcases hd with h3 | ⟨h0, hb⟩
    · rw [receiveData_discard _ b h3]
      exact ih
    · obtain ⟨hi, hp, hr⟩ := ih
      have hbit : bitRead0 0 = false := by decide
      rw [receiveData_status _ b hi h0, u8_and_one, hb, hbit]
      exact ⟨⟨hi.1, rfl⟩, hp, hr⟩

theorem receiveLoop_eq_foldl (rx : List Nat) : ∀ (s : State),
    receiveLoop rx.length s rx =
      some (rx.foldl (fun s b => advance (receiveData s b)) s) := by
  induction rx with
  | nil => intro s; rfl
  | cons b rx ih => intro s; exact ih _

/-- C20 (counterexample): the calibrated state is Idle after a successful
calibration, with PWM level 0.  The master writes `[0x00, 0x01]`, a write to the
Status register and to neither SpeedCommand nor MinPwmFloor; three measurement
ticks without a pulse later the PWM level is 5, not 0, and register 1 is as it
was. -/
theorem pwm_rises_after_status_write :
    Idle calibratedState ∧ calibratedState.pwmLevel = 0 ∧
      i2cReceiveEvent calibratedState 2 [0x00, 0x01] = some requestedState ∧
      requestedState.i2c_regs.r1 = calibratedState.i2c_regs.r1 ∧
      requestedState.i2c_regs.r2 = calibratedState.i2c_regs.r2 ∧
      Fires requestedState 12000 ∧ Fires (tick requestedState 0 12000) 15000 ∧
      Fires (tick (tick requestedState 0 12000) 0 15000) 18000 ∧
      (ticks requestedState [(0, 12000), (0, 15000), (0, 18000)]).pwmLevel = 5 ∧
      (ticks requestedState [(0, 12000), (0, 15000), (0, 18000)]).i2c_regs.r1 =
        calibratedState.i2c_regs.r1 := by
  decide

/-- C20 (amended): no pass of `loop()`, in whatever state, and so no sequence of
measurement ticks, changes the SpeedCommand register.  The Ramping tick that
measures more than 200 rpm leaves the machine Idle with PWM level 0 and register
1 as before; the PWM level then stays 0, and the machine Idle, through every
pass of `loop()`, tacho interrupt, read request, pointer byte and data byte
processed at a pointer of 3 or more or, with bit 0 clear, at pointer 0: that
is, until the master writes a data byte to SpeedCommand or MinPwmFloor or
requests a new calibration through the Status register. -/
theorem speed_command_untouched (s : State) (c millis : Nat) (hr : Ramping s)
    (hf : Fires s millis) (hhigh : 200 < rpmOf c) :
    (∀ (s1 : State) (c1 m1 : Nat), (tick s1 c1 m1).i2c_regs.r1 = s1.i2c_regs.r1) ∧
      (∀ (s1 : State) (l : List (Nat × Nat)), (ticks s1 l).i2c_regs.r1 = s1.i2c_regs.r1) ∧
      Idle (tick s c millis) ∧ (tick s c millis).pwmLevel = 0 ∧
      (tick s c millis).i2c_regs.r1 = s.i2c_regs.r1 ∧
      (∀ t, Undisturbed (tick s c millis) t →
        Idle t ∧ t.pwmLevel = 0 ∧ t.i2c_regs.r1 = s.i2c_regs.r1) := by
  obtain ⟨hid, hp, _⟩ := tick_ramping_high s c millis hf hr hhigh
  have hr1 : (tick s c millis).i2c_regs.r1 = s.i2c_regs.r1 := loop_r1 _ millis
  refine ⟨fun s1 c1 m1 => loop_r1 _ m1, fun s1 l => ticks_r1 l s1, hid, hp, hr1, ?_⟩
  intro t hu
  obtain ⟨h1, h2, h3⟩ := hu.idle hid
  exact ⟨h1, h2.trans hp, h3.trans hr1⟩

/-- Witness of C20 (amended): the third measurement after `setup()` counts 11
pulses; afterwards a byte written to register 3 and a pass of `loop()` leave the
PWM level at 0. -/
theorem speed_command_untouched_witness :
    Idle (tick (tick (tick (setup 0) 0 3000) 0 6000) 11 9000) ∧
      (tick (tick (tick (setup 0) 0 3000) 0 6000) 11 9000).pwmLevel = 0 ∧
      (loop (advance (receiveData
        { tick (tick (tick (setup 0) 0 3000) 0 6000) 11 9000 with
          blinkLed := true, reg_position := u8 3 } 0x55)) 12000).pwmLevel = 0 :=
  have h := speed_command_untouched (tick (tick (setup 0) 0 3000) 0 6000) 11 9000
    (by decide) (by decide) (by decide)
  ⟨h.2.2.1, h.2.2.2.1,
    (h.2.2.2.2.2 _ (Undisturbed.pass 12000 (Undisturbed.data 0x55
      (Undisturbed.pointer 3 Undisturbed.start) (Or.inl (by decide))))).2.1⟩

end FanControl
